import Mathlib

/-!
Verification of the provenance-crate query module.

This file shallowly embeds the core of `provenance_context/__init__.py`:
index construction (`_build_indexes`), selector resolution
(`get_file_entities`), the one-hop lineage query (`get_file_lineage`),
the two breadth-first traversals (`get_file_ancestry`,
`get_file_descendants`) and the `step_runs` portion of
`get_site_artifacts`.

Modelling conventions:
- JSON-LD entities become the `Entity` structure; attribute values that
  are arbitrary JSON in the source (`value`, `exampleOfWork`, timestamps)
  are modelled as optional strings, which is the only shape the queries
  ever produce or compare.
- Python dictionaries keyed by strings become association lists
  (insertion order preserved) or total functions with a default.
- A raising dictionary subscript (`self.by_id[act_id]`) is modelled with
  `Option`: `none` corresponds to a `KeyError`.
- Python truthiness of an id string (used by `if oid:` and
  `if inst_id:`) means "not `None` and not the empty string".
-/

namespace Prov

/-- JSON-LD `@type`: absent, a single string, or a list of strings. -/
inductive TypeTag where
  | missing
  | one (t : String)
  | many (ts : List String)
  deriving DecidableEq, Repr

/-- A reference inside `result` / `object` / `instrument`: either an inline
id string or a nested object that may carry an `@id`. -/
inductive Ref where
  | inline (s : String)
  | nested (oid : Option String)
  deriving DecidableEq, Repr

/-- A JSON-LD entity of the crate graph, restricted to the attributes the
queries read.  Attribute values are modelled as optional strings. -/
structure Entity where
  id : String
  types : TypeTag := .missing
  alternateName : Option String := none
  sha1 : Option String := none
  encodingFormat : Option String := none
  fileFormat : Option String := none
  exampleOfWork : Option String := none
  name : Option String := none
  value : Option String := none
  startTime : Option String := none
  endTime : Option String := none
  instrument : Option Ref := none
  result : List Ref := []
  object : List Ref := []
  input : List Ref := []
  output : List Ref := []
  deriving DecidableEq, Repr

/-- `_has_type`: `@type` may be a single string or a list. -/
def hasType (e : Entity) (tname : String) : Bool :=
  match e.types with
  | .missing => false
  | .one t => t == tname
  | .many ts => ts.contains tname

/-- `oid = obj.get("@id") if isinstance(obj, dict) else obj`. -/
def Ref.oid : Ref → Option String
  | .inline s => some s
  | .nested o => o

/-- The id of a reference after the `if oid:` truthiness guard used by
`_build_indexes` (`None` and the empty string are falsy). -/
def Ref.oidT (r : Ref) : Option String :=
  match r.oid with
  | some s => if s = "" then none else some s
  | none => none

/-- The ids of the graph entities, in graph order. -/
def idsOf (g : List Entity) : List String :=
  g.map Entity.id

/-- `by_id`: the dict `{e["@id"]: e for e in graph}`.  Later entries
overwrite earlier ones, so lookup returns the last entity with that id. -/
def byId (g : List Entity) (x : String) : Option Entity :=
  g.foldl (fun acc e => if e.id = x then some e else acc) none

/-- Insert a key into an insertion-ordered key list if not yet present
(models adding a key to a Python dict or set). -/
def insertNew (ks : List String) (k : String) : List String :=
  if k ∈ ks then ks else ks ++ [k]

/-- The keys of `by_id` in first-insertion order. -/
def dictKeys (g : List Entity) : List String :=
  g.foldl (fun ks e => insertNew ks e.id) []

/-- `list(by_id.values())`: keys in first-insertion order, each mapped to
its last-written entity. -/
def byIdValues (g : List Entity) : List Entity :=
  (dictKeys g).filterMap (byId g)

/-- `self.actions`: the CreateAction entities, in graph order. -/
def actionsOf (g : List Entity) : List Entity :=
  g.filter (fun e => hasType e "CreateAction")

/-- One `index[oid].append(act_id)` update of a `defaultdict(list)`. -/
def idxAppend (m : String → List String) (k v : String) : String → List String :=
  fun x => if x = k then m x ++ [v] else m x

/-- The inner loop of `_build_indexes` over one action's reference list:
append the action id under every truthy referenced id. -/
def indexRefs (actId : String) (refs : List Ref) (m : String → List String) :
    String → List String :=
  refs.foldl (fun m r =>
    match r.oidT with
    | some k => idxAppend m k actId
    | none => m) m

/-- `actions_by_result` as built by `_build_indexes` (the source fills both
indexes in one pass over the actions; the two passes touch disjoint
structures, so building each index by its own pass is equivalent).
Missing keys give `[]`, as `dict.get(fid, [])` does. -/
def actionsByResult (g : List Entity) : String → List String :=
  (actionsOf g).foldl (fun m a => indexRefs a.id a.result m) (fun _ => [])

/-- `actions_by_input` as built by `_build_indexes`. -/
def actionsByInput (g : List Entity) : String → List String :=
  (actionsOf g).foldl (fun m a => indexRefs a.id a.object m) (fun _ => [])

/-- Python `a or b` on optional strings (`None` and `""` are falsy). -/
def pyOr (a b : Option String) : Option String :=
  match a with
  | some s => if s = "" then b else some s
  | none => b

/-- `_summarise_file`. -/
structure FileSummary where
  id : String
  name : Option String
  sha1 : Option String
  encodingFormat : Option String
  exampleOfWork : Option String
  deriving DecidableEq, Repr

/-- `_summarise_dataset`. -/
structure DatasetSummary where
  id : String
  name : Option String
  deriving DecidableEq, Repr

/-- `_summarise_param`. -/
structure ParamSummary where
  id : String
  name : Option String
  value : Option String
  exampleOfWork : Option String
  deriving DecidableEq, Repr

/-- `_summarise_action`. -/
structure ActionSummary where
  id : String
  name : Option String
  startTime : Option String
  endTime : Option String
  deriving DecidableEq, Repr

/-- `_summarise_tool` (for a resolved tool entity). -/
structure ToolSummary where
  id : String
  name : Option String
  type : TypeTag
  inputs : List Ref
  outputs : List Ref
  deriving DecidableEq, Repr

/-- The `{id, type}` record used for unclassified action inputs/outputs. -/
structure OtherSummary where
  id : String
  type : TypeTag
  deriving DecidableEq, Repr

def summariseFile (e : Entity) : FileSummary :=
  { id := e.id, name := e.alternateName, sha1 := e.sha1,
    encodingFormat := pyOr e.encodingFormat e.fileFormat,
    exampleOfWork := e.exampleOfWork }

def summariseDataset (e : Entity) : DatasetSummary :=
  { id := e.id, name := e.alternateName }

def summariseParam (e : Entity) : ParamSummary :=
  { id := e.id, name := e.name, value := e.value, exampleOfWork := e.exampleOfWork }

def summariseAction (e : Entity) : ActionSummary :=
  { id := e.id, name := e.name, startTime := e.startTime, endTime := e.endTime }

def summariseTool : Option Entity → Option ToolSummary
  | none => none
  | some e => some { id := e.id, name := e.name, type := e.types,
                     inputs := e.input, outputs := e.output }

/-- Normalize a reference and look it up:
`oid = obj.get("@id") if isinstance(obj, dict) else obj` followed by
`ent = self.by_id.get(oid)` (a missing id resolves to nothing). -/
def resolveRef (g : List Entity) (r : Ref) : Option Entity :=
  match r.oid with
  | some k => byId g k
  | none => none

/-- `inst_id` extraction from `act.get("instrument")`. -/
def instId (e : Entity) : Option String :=
  match e.instrument with
  | none => none
  | some r => r.oid

/-- `tool = self.by_id.get(inst_id) if inst_id else None`, summarised. -/
def resolveTool (g : List Entity) (act : Entity) : Option ToolSummary :=
  summariseTool (match instId act with
    | some k => if k = "" then none else byId g k
    | none => none)

/-- The `inputs` buckets `{"files": [], "datasets": [], "parameters": [], "other": []}`. -/
structure Buckets where
  files : List FileSummary := []
  datasets : List DatasetSummary := []
  parameters : List ParamSummary := []
  other : List OtherSummary := []
  deriving DecidableEq, Repr

/-- One step of the input-partitioning loop shared verbatim by
`get_file_lineage`, `get_file_ancestry` and `get_file_descendants`. -/
def bucketStep (g : List Entity) (b : Buckets) (r : Ref) : Buckets :=
  match resolveRef g r with
  | none => b
  | some ent =>
    if hasType ent "File" then
      { b with files := b.files ++ [summariseFile ent] }
    else if hasType ent "Dataset" then
      { b with datasets := b.datasets ++ [summariseDataset ent] }
    else if hasType ent "PropertyValue" then
      { b with parameters := b.parameters ++ [summariseParam ent] }
    else
      { b with other := b.other ++ [{ id := ent.id, type := ent.types }] }

/-- Partition a reference list into the four buckets. -/
def partitionRefs (g : List Entity) (objs : List Ref) : Buckets :=
  objs.foldl (bucketStep g) {}

/-- Partition an action's `object` list (its inputs). -/
def partitionInputs (g : List Entity) (act : Entity) : Buckets :=
  partitionRefs g act.object

/-- Python substring test `pat in s`, on character lists. -/
def listInfix (pat : List Char) : List Char → Bool
  | [] => pat.isEmpty
  | c :: rest => pat.isPrefixOf (c :: rest) || listInfix pat rest

/-- Python `pattern in alt` for strings. -/
def strContains (s pat : String) : Bool :=
  listInfix pat.data s.data

/-- `_find_files_by_altname`: File entities whose `alternateName`
(defaulting to the empty string) contains the pattern. -/
def findFilesByAltname (g : List Entity) (pattern : String) : List Entity :=
  g.filter (fun e => hasType e "File" && strContains (e.alternateName.getD "") pattern)

/-- Cases 2 and 3 of `get_file_entities`: exact `alternateName` match over
`by_id.values()`, falling back to the substring match over the graph. -/
def getFileEntitiesByName (g : List Entity) (sel : String) : List Entity :=
  let exact := (byIdValues g).filter
    (fun e => hasType e "File" && e.alternateName == some sel)
  if exact.isEmpty then findFilesByAltname g sel else exact

/-- `get_file_entities`: exact `@id` match first (only if the entity is a
File), then exact `alternateName`, then substring. -/
def getFileEntities (g : List Entity) (sel : String) : List Entity :=
  match byId g sel with
  | some ent =>
    if hasType ent "File" then [ent] else getFileEntitiesByName g sel
  | none => getFileEntitiesByName g sel

/-- The `{action, tool, inputs}` record stored by `get_file_lineage`
(`produced_by`) and by the ancestry walker (`action_nodes` values). -/
structure ActionRecord where
  action : ActionSummary
  tool : Option ToolSummary
  inputs : Buckets
  deriving DecidableEq, Repr

/-- One record of `get_file_lineage`.  `note` is present only on the
no-producer record. -/
structure LineageRecord where
  file : FileSummary
  produced_by : Option ActionRecord
  site_ids : List (Option String)
  note : Option String
  deriving DecidableEq, Repr

/-- The note string placed on a no-producer lineage record. -/
def noProducerNote : String :=
  "No CreateAction found that lists this file in its result."

/-- `[p["value"] for p in inputs["parameters"] if p.get("name") == "site_id"]`. -/
def bucketSiteIds (b : Buckets) : List (Option String) :=
  (b.parameters.filter (fun p => p.name == some "site_id")).map (fun p => p.value)

/-- One producer record of `get_file_lineage`.  `by_id[act_id]` is a
raising subscript; `none` models the `KeyError` (provably unreachable). -/
def lineageRecord (g : List Entity) (f : Entity) (actId : String) : Option LineageRecord :=
  match byId g actId with
  | none => none
  | some act =>
    some { file := summariseFile f,
           produced_by := some { action := summariseAction act,
                                 tool := resolveTool g act,
                                 inputs := partitionInputs g act },
           site_ids := bucketSiteIds (partitionInputs g act),
           note := none }

/-- The no-producer record appended when `actions_by_result` has no entry
for the file. -/
def lineageNoProd (f : Entity) : LineageRecord :=
  { file := summariseFile f, produced_by := none, site_ids := [],
    note := some noProducerNote }

/-- One iteration of the `for act_id in producers` loop. -/
def lineageInnerStep (g : List Entity) (f : Entity)
    (acc2 : Option (List LineageRecord)) (actId : String) : Option (List LineageRecord) :=
  acc2.bind (fun out2 => (lineageRecord g f actId).map (fun r => out2 ++ [r]))

/-- One iteration of the `for f in files` loop of `get_file_lineage`. -/
def lineageStep (g : List Entity) (acc : Option (List LineageRecord)) (f : Entity) :
    Option (List LineageRecord) :=
  acc.bind (fun out =>
    match actionsByResult g f.id with
    | [] => some (out ++ [lineageNoProd f])
    | producers => producers.foldl (lineageInnerStep g f) (some out))

/-- `get_file_lineage`.  Returns `none` if the `by_id[act_id]` subscript
would raise. -/
def getFileLineage (g : List Entity) (sel : String) : Option (List LineageRecord) :=
  (getFileEntities g sel).foldl (lineageStep g) (some [])

/-- One `{type, action, entity}` edge of a traversal result. -/
structure Edge where
  type : String
  action : String
  entity : String
  deriving DecidableEq, Repr

/-- An `entity_nodes` value: a File summary or a Dataset summary. -/
inductive NodeSummary where
  | file (s : FileSummary)
  | dataset (s : DatasetSummary)
  deriving DecidableEq, Repr

/-- `summary.get("sha1")` on an entity-node dict (Dataset summaries have
no `sha1` key). -/
def NodeSummary.sha1 : NodeSummary → Option String
  | .file s => s.sha1
  | .dataset _ => none

/-- `max_depth is None or depth + 1 <= max_depth`. -/
def depthOk (maxDepth : Option Nat) (depth : Nat) : Bool :=
  match maxDepth with
  | none => true
  | some m => depth + 1 ≤ m

/-- The mutable locals of the ancestry while-loop. -/
structure AncState where
  queue : List (String × Nat)
  visitedE : List String
  visitedA : List String
  entityNodes : List (String × NodeSummary)
  actionNodes : List (String × ActionRecord)
  edges : List Edge
  deriving DecidableEq, Repr

/-- The part of the ancestry state touched while expanding the generating
actions of one dequeued entity (the entity loop never writes
`visited_entities` or `entity_nodes` there). -/
structure AncAcc where
  queue : List (String × Nat)
  visitedA : List String
  actionNodes : List (String × ActionRecord)
  edges : List Edge
  deriving DecidableEq, Repr

/-- Record a "used" edge for one Artifact/Container input of a
newly-expanded action, and enqueue it at `depth + 1` when within the
depth bound. -/
def ancEnqueue (maxDepth : Option Nat) (actId : String) (depth : Nat)
    (a : AncAcc) (inId : String) : AncAcc :=
  let a2 := { a with edges := a.edges ++ [{ type := "used", action := actId, entity := inId }] }
  if depthOk maxDepth depth then { a2 with queue := a2.queue ++ [(inId, depth + 1)] }
  else a2

/-- Process one generating action of a dequeued entity in
`get_file_ancestry`: always record the "generated" edge; expand the
action (tool, input buckets, "used" edges, enqueueing) only if it is not
yet in `visited_actions`. -/
def ancAction (g : List Entity) (maxDepth : Option Nat) (entId : String) (depth : Nat)
    (a : AncAcc) (actId : String) : AncAcc :=
  match byId g actId with
  | none => a
  | some act =>
    let a1 := { a with edges := a.edges ++ [{ type := "generated", action := actId, entity := entId }] }
    if actId ∈ a1.visitedA then a1
    else
      let a2 := { a1 with visitedA := a1.visitedA ++ [actId] }
      let inputs := partitionInputs g act
      let a3 := { a2 with actionNodes := a2.actionNodes ++
        [(actId, { action := summariseAction act, tool := resolveTool g act, inputs := inputs })] }
      let a4 := inputs.files.foldl (fun b f => ancEnqueue maxDepth actId depth b f.id) a3
      inputs.datasets.foldl (fun b d => ancEnqueue maxDepth actId depth b d.id) a4

/-- Helper for the termination measure: the number of graph entity slots
whose id has not been visited yet. -/
def unvis (g : List Entity) (v : List String) : Nat :=
  ((idsOf g).filter (fun i => !decide (i ∈ v))).length

theorem filterLen_le {α : Type} (l : List α) (p q : α → Bool)
    (h : ∀ a, q a = true → p a = true) :
    (l.filter q).length ≤ (l.filter p).length := by
  induction l with
  | nil => simp
  | cons a t ih =>
    by_cases hq : q a
    · simp [hq, h a hq]; omega
    · by_cases hp : p a <;> simp [hq, hp] <;> omega

theorem filterLen_lt {α : Type} (l : List α) (p q : α → Bool) (x : α)
    (hx : x ∈ l) (hpx : p x = true) (hqx : q x = false)
    (h : ∀ a, q a = true → p a = true) :
    (l.filter q).length < (l.filter p).length := by
  induction l with
  | nil => simp at hx
  | cons a t ih =>
    by_cases hax : a = x
    · subst hax
      simp [hqx, hpx]
      have := filterLen_le t p q h
      omega
    · have hxt : x ∈ t := by
        rcases List.mem_cons.mp hx with h1 | h1
        · exact absurd h1.symm hax
        · exact h1
      by_cases hq : q a
      · simp [hq, h a hq]
        exact ih hxt
      · by_cases hp : p a
        · simp [hq, hp]
          have := ih hxt
          omega
        · simp [hq, hp]
          exact ih hxt

theorem unvis_lt (g : List Entity) (v : List String) (x : String)
    (hx : x ∈ idsOf g) (hv : x ∉ v) :
    unvis g (v ++ [x]) < unvis g v := by
  apply filterLen_lt (x := x) _ _ _ hx
  · simpa using hv
  · simp
  · intro a ha
    simp at ha ⊢
    exact fun hm => ha.1 hm

theorem unvis_not_mem (g : List Entity) (v : List String) (x : String)
    (hx : x ∉ idsOf g) :
    unvis g (v ++ [x]) = unvis g v := by
  unfold unvis
  congr 1
  apply List.filter_congr
  intro a ha
  have hax : ¬ a = x := fun he => hx (he ▸ ha)
  simp [hax]

theorem byId_some_aux (x : String) (g : List Entity) :
    ∀ (acc : Option Entity) (e : Entity),
      g.foldl (fun acc e => if e.id = x then some e else acc) acc = some e →
      (e ∈ g ∧ e.id = x) ∨ acc = some e := by
  induction g with
  | nil => intro acc e h; exact Or.inr h
  | cons a t ih =>
    intro acc e h
    simp only [List.foldl_cons] at h
    rcases ih _ e h with h1 | h1
    · exact Or.inl ⟨List.mem_cons_of_mem a h1.1, h1.2⟩
    · by_cases ha : a.id = x
      · simp [ha] at h1
        exact Or.inl ⟨h1 ▸ List.mem_cons_self a t, h1 ▸ ha⟩
      · simp [ha] at h1
        exact Or.inr h1

theorem byId_eq_some (g : List Entity) (x : String) (e : Entity)
    (h : byId g x = some e) : e ∈ g ∧ e.id = x := by
  rcases byId_some_aux x g none e h with h1 | h1
  · exact h1
  · simp at h1

theorem byId_none_aux (x : String) (g : List Entity) :
    ∀ (acc : Option Entity),
      g.foldl (fun acc e => if e.id = x then some e else acc) acc = none →
      (∀ e ∈ g, e.id ≠ x) ∧ acc = none := by
  induction g with
  | nil => intro acc h; exact ⟨by simp, h⟩
  | cons a t ih =>
    intro acc h
    simp only [List.foldl_cons] at h
    rcases ih _ h with ⟨ht, hstep⟩
    by_cases ha : a.id = x
    · simp [ha] at hstep
    · simp [ha] at hstep
      refine ⟨?_, hstep⟩
      intro e he
      rcases List.mem_cons.mp he with rfl | he2
      · exact ha
      · exact ht e he2

theorem byId_eq_none (g : List Entity) (x : String)
    (h : byId g x = none) : x ∉ idsOf g := by
  rcases byId_none_aux x g none h with ⟨hall, _⟩
  intro hm
  rcases List.mem_map.mp hm with ⟨e, he, hid⟩
  exact hall e he hid

theorem mem_idsOf_of_byId (g : List Entity) (x : String) (e : Entity)
    (h : byId g x = some e) : x ∈ idsOf g := by
  rcases byId_eq_some g x e h with ⟨he, hid⟩
  exact hid ▸ List.mem_map_of_mem Entity.id he

theorem mem_idsOf_of_isSome (g : List Entity) (x : String)
    (h : (byId g x).isSome) : x ∈ idsOf g := by
  rcases Option.isSome_iff_exists.mp h with ⟨e, he⟩
  exact mem_idsOf_of_byId g x e he

theorem byId_eq_none_of_not_isSome (g : List Entity) (x : String)
    (h : ¬ (byId g x).isSome) : byId g x = none :=
  Option.not_isSome_iff_eq_none.mp h

/-- The while-loop of `get_file_ancestry`. -/
def ancLoop (g : List Entity) (maxDepth : Option Nat) : AncState → AncState
  | ⟨[], vE, vA, en, an, ed⟩ => ⟨[], vE, vA, en, an, ed⟩
  | ⟨(entId, depth) :: rest, vE, vA, en, an, ed⟩ =>
    if entId ∈ vE then ancLoop g maxDepth ⟨rest, vE, vA, en, an, ed⟩
    else if hb : (byId g entId).isSome then
      let ent := (byId g entId).get hb
      if hasType ent "File" then
        let a := (actionsByResult g entId).foldl (ancAction g maxDepth entId depth)
          ⟨rest, vA, an, ed⟩
        ancLoop g maxDepth ⟨a.queue, vE ++ [entId], a.visitedA,
          en ++ [(entId, .file (summariseFile ent))], a.actionNodes, a.edges⟩
      else if hasType ent "Dataset" then
        let a := (actionsByResult g entId).foldl (ancAction g maxDepth entId depth)
          ⟨rest, vA, an, ed⟩
        ancLoop g maxDepth ⟨a.queue, vE ++ [entId], a.visitedA,
          en ++ [(entId, .dataset (summariseDataset ent))], a.actionNodes, a.edges⟩
      else
        ancLoop g maxDepth ⟨rest, vE ++ [entId], vA, en, an, ed⟩
    else
      ancLoop g maxDepth ⟨rest, vE ++ [entId], vA, en, an, ed⟩
  termination_by s => (unvis g s.visitedE, s.queue.length)
  decreasing_by
    · apply Prod.Lex.right
      simp
    · apply Prod.Lex.left
      exact unvis_lt g vE entId (mem_idsOf_of_isSome g entId hb) (by assumption)
    · apply Prod.Lex.left
      exact unvis_lt g vE entId (mem_idsOf_of_isSome g entId hb) (by assumption)
    · apply Prod.Lex.left
      exact unvis_lt g vE entId (mem_idsOf_of_isSome g entId hb) (by assumption)
    · rename_i hb
      rw [unvis_not_mem g vE entId
        (byId_eq_none g entId (byId_eq_none_of_not_isSome g entId hb))]
      apply Prod.Lex.right
      simp

/-- The four-field result of `get_file_ancestry`. -/
structure AncResult where
  root_files : List FileSummary
  entities : List (String × NodeSummary)
  actions : List (String × ActionRecord)
  edges : List Edge
  deriving DecidableEq, Repr

/-- The final loop state of `get_file_ancestry` (roots enqueued at depth 0). -/
def ancRun (g : List Entity) (sel : String) (maxDepth : Option Nat) : AncState :=
  ancLoop g maxDepth ⟨(getFileEntities g sel).map (fun f => (f.id, 0)), [], [], [], [], []⟩

/-- `get_file_ancestry`. -/
def getFileAncestry (g : List Entity) (sel : String) (maxDepth : Option Nat) : AncResult :=
  let files := getFileEntities g sel
  if files.isEmpty then ⟨[], [], [], []⟩
  else
    let s := ancRun g sel maxDepth
    ⟨files.map summariseFile, s.entityNodes, s.actionNodes, s.edges⟩

/-- The `outputs` buckets of a descendants action record. -/
structure OutBuckets where
  files : List FileSummary := []
  datasets : List DatasetSummary := []
  other : List OtherSummary := []
  deriving DecidableEq, Repr

/-- An `action_nodes` value of `get_file_descendants` (carries `outputs`). -/
structure DescActionRecord where
  action : ActionSummary
  tool : Option ToolSummary
  inputs : Buckets
  outputs : OutBuckets
  deriving DecidableEq, Repr

/-- The mutable locals of the descendants while-loop. -/
structure DescState where
  queue : List (String × Nat)
  visitedE : List String
  visitedA : List String
  entityNodes : List (String × NodeSummary)
  actionNodes : List (String × DescActionRecord)
  edges : List Edge
  deriving DecidableEq, Repr

/-- The part of the descendants state touched while expanding the
consuming actions of one dequeued entity. -/
structure DescAcc where
  queue : List (String × Nat)
  visitedA : List String
  actionNodes : List (String × DescActionRecord)
  edges : List Edge
  deriving DecidableEq, Repr

/-- Process one `result` reference of a consuming action: bucket it, and
for File/Dataset outputs record a "generated" edge and enqueue within the
depth bound. -/
def descOutStep (g : List Entity) (maxDepth : Option Nat) (actId : String) (depth : Nat)
    (acc : OutBuckets × List Edge × List (String × Nat)) (r : Ref) :
    OutBuckets × List Edge × List (String × Nat) :=
  match resolveRef g r with
  | none => acc
  | some ent =>
    let outs := acc.1
    let eds := acc.2.1
    let q := acc.2.2
    if hasType ent "File" then
      let eds2 := eds ++ [{ type := "generated", action := actId, entity := ent.id }]
      let q2 := if depthOk maxDepth depth then q ++ [(ent.id, depth + 1)] else q
      ({ outs with files := outs.files ++ [summariseFile ent] }, eds2, q2)
    else if hasType ent "Dataset" then
      let eds2 := eds ++ [{ type := "generated", action := actId, entity := ent.id }]
      let q2 := if depthOk maxDepth depth then q ++ [(ent.id, depth + 1)] else q
      ({ outs with datasets := outs.datasets ++ [summariseDataset ent] }, eds2, q2)
    else
      ({ outs with other := outs.other ++ [{ id := ent.id, type := ent.types }] }, eds, q)

/-- Process one consuming action of a dequeued entity in
`get_file_descendants`: always record the "used" edge; expand the action
(tool, input buckets, output buckets with "generated" edges and
enqueueing) only if it is not yet in `visited_actions`. -/
def descAction (g : List Entity) (maxDepth : Option Nat) (entId : String) (depth : Nat)
    (a : DescAcc) (actId : String) : DescAcc :=
  match byId g actId with
  | none => a
  | some act =>
    let a1 := { a with edges := a.edges ++ [{ type := "used", action := actId, entity := entId }] }
    if actId ∈ a1.visitedA then a1
    else
      let a2 := { a1 with visitedA := a1.visitedA ++ [actId] }
      let inputs := partitionInputs g act
      let res := act.result.foldl (descOutStep g maxDepth actId depth) ({}, a2.edges, a2.queue)
      { a2 with queue := res.2.2, edges := res.2.1,
                actionNodes := a2.actionNodes ++
                  [(actId, { action := summariseAction act, tool := resolveTool g act,
                             inputs := inputs, outputs := res.1 })] }

/-- The while-loop of `get_file_descendants`. -/
def descLoop (g : List Entity) (maxDepth : Option Nat) : DescState → DescState
  | ⟨[], vE, vA, en, an, ed⟩ => ⟨[], vE, vA, en, an, ed⟩
  | ⟨(entId, depth) :: rest, vE, vA, en, an, ed⟩ =>
    if entId ∈ vE then descLoop g maxDepth ⟨rest, vE, vA, en, an, ed⟩
    else if hb : (byId g entId).isSome then
      let ent := (byId g entId).get hb
      if hasType ent "File" then
        let a := (actionsByInput g entId).foldl (descAction g maxDepth entId depth)
          ⟨rest, vA, an, ed⟩
        descLoop g maxDepth ⟨a.queue, vE ++ [entId], a.visitedA,
          en ++ [(entId, .file (summariseFile ent))], a.actionNodes, a.edges⟩
      else if hasType ent "Dataset" then
        let a := (actionsByInput g entId).foldl (descAction g maxDepth entId depth)
          ⟨rest, vA, an, ed⟩
        descLoop g maxDepth ⟨a.queue, vE ++ [entId], a.visitedA,
          en ++ [(entId, .dataset (summariseDataset ent))], a.actionNodes, a.edges⟩
      else
        descLoop g maxDepth ⟨rest, vE ++ [entId], vA, en, an, ed⟩
    else
      descLoop g maxDepth ⟨rest, vE ++ [entId], vA, en, an, ed⟩
  termination_by s => (unvis g s.visitedE, s.queue.length)
  decreasing_by
    · apply Prod.Lex.right
      simp
    · apply Prod.Lex.left
      exact unvis_lt g vE entId (mem_idsOf_of_isSome g entId hb) (by assumption)
    · apply Prod.Lex.left
      exact unvis_lt g vE entId (mem_idsOf_of_isSome g entId hb) (by assumption)
    · apply Prod.Lex.left
      exact unvis_lt g vE entId (mem_idsOf_of_isSome g entId hb) (by assumption)
    · rename_i hb
      rw [unvis_not_mem g vE entId
        (byId_eq_none g entId (byId_eq_none_of_not_isSome g entId hb))]
      apply Prod.Lex.right
      simp

/-- The five-field result of `get_file_descendants`. -/
structure DescResult where
  root_files : List FileSummary
  entities : List (String × NodeSummary)
  actions : List (String × DescActionRecord)
  edges : List Edge
  descendant_files : List NodeSummary
  deriving DecidableEq, Repr

/-- The final loop state of `get_file_descendants`. -/
def descRun (g : List Entity) (sel : String) (maxDepth : Option Nat) : DescState :=
  descLoop g maxDepth ⟨(getFileEntities g sel).map (fun f => (f.id, 0)), [], [], [], [], []⟩

/-- `get_file_descendants`, including the derived `descendant_files` list
(visited entity nodes that are not roots and carry a `sha1`). -/
def getFileDescendants (g : List Entity) (sel : String) (maxDepth : Option Nat) : DescResult :=
  let roots := getFileEntities g sel
  if roots.isEmpty then ⟨[], [], [], [], []⟩
  else
    let rootIds := roots.map Entity.id
    let s := descRun g sel maxDepth
    let descFiles := (s.entityNodes.filter
      (fun kv => !decide (kv.1 ∈ rootIds) && kv.2.sha1.isSome)).map (fun kv => kv.2)
    ⟨roots.map summariseFile, s.entityNodes, s.actionNodes, s.edges, descFiles⟩

/-- Lexicographic ≤ on code-point lists, exactly Python's string
comparison. -/
def lexLe : List Char → List Char → Bool
  | [], _ => true
  | _ :: _, [] => false
  | c :: cs, d :: ds =>
    if c.toNat < d.toNat then true
    else if d.toNat < c.toNat then false
    else lexLe cs ds

/-- Python string ≤ (code-point lexicographic). -/
def strLeb (a b : String) : Bool :=
  lexLe a.data b.data

/-- Insert a string into a sorted list of strings. -/
def insertSorted (x : String) : List String → List String
  | [] => [x]
  | y :: t => if strLeb x y then x :: y :: t else y :: insertSorted x t

/-- Lexicographic ascending sort, modelling Python `sorted` on strings
(its input here is duplicate-free, so stability is irrelevant). -/
def sortStrings : List String → List String
  | [] => []
  | x :: t => insertSorted x (sortStrings t)

/-- Does the action carry, among its inputs, a PropertyValue named
`"site_id"` with the requested value?  (The source loop breaks at the
first match, which is exactly an existence test.) -/
def siteQualifies (g : List Entity) (siteId : String) (act : Entity) : Bool :=
  act.object.any (fun r =>
    match resolveRef g r with
    | some ent => hasType ent "PropertyValue" && ent.name == some "site_id"
        && ent.value == some siteId
    | none => false)

/-- `site_action_ids`: a Python set, modelled as a duplicate-free list in
first-insertion order (set iteration order is irrelevant because the ids
are sorted before use). -/
def siteActionIds (g : List Entity) (siteId : String) : List String :=
  (actionsOf g).foldl
    (fun acc a => if siteQualifies g siteId a then insertNew acc a.id else acc) []

/-- A `step_runs` record of `get_site_artifacts`. -/
structure RunSummary where
  action : ActionSummary
  tool : Option ToolSummary
  site_ids : List (Option String)
  deriving DecidableEq, Repr

/-- `summarise_run`: the action and tool summaries plus the values of all
`site_id`-named PropertyValue inputs (not filtered to the requested id). -/
def summariseRun (g : List Entity) (act : Entity) : RunSummary :=
  { action := summariseAction act, tool := resolveTool g act,
    site_ids := ((act.object.filterMap (resolveRef g)).filter
      (fun ent => hasType ent "PropertyValue" && ent.name == some "site_id")).map
      (fun ent => ent.value) }

/-- The `step_runs` component of `get_site_artifacts`:
`[summarise_run(self.by_id[aid]) for aid in sorted(site_action_ids)]`.
The raising subscript `by_id[aid]` is modelled as `Option`. -/
def siteStepRuns (g : List Entity) (siteId : String) : Option (List RunSummary) :=
  (sortStrings (siteActionIds g siteId)).foldl
    (fun acc aid => acc.bind (fun out => (byId g aid).map (fun a => out ++ [summariseRun g a])))
    (some [])

/-- The spec's closed entity-kind set, resolved with the classification
priority used by every partitioning loop. -/
inductive Kind where
  | artifact
  | container
  | param
  | other
  deriving DecidableEq, Repr

def kindOf (e : Entity) : Kind :=
  if hasType e "File" then .artifact
  else if hasType e "Dataset" then .container
  else if hasType e "PropertyValue" then .param
  else .other

/-- The inputs of an action that resolve to entities, in input order. -/
def resolvedInputs (g : List Entity) (act : Entity) : List Entity :=
  act.object.filterMap (resolveRef g)

/-- Written from the claim: the `value` of every Parameter-kind input of
the action whose name is `"site_id"`, in input order. -/
def directSiteIds (g : List Entity) (act : Entity) : List (Option String) :=
  ((resolvedInputs g act).filter
    (fun ent => kindOf ent == Kind.param && ent.name == some "site_id")).map
    (fun ent => ent.value)

/-- Written from the claim: the lineage records for one resolved artifact
(one no-producer record, or one record per producing action, with
`site_ids` computed directly from the action's Parameter inputs). -/
def lineageSpecFor (g : List Entity) (f : Entity) : List LineageRecord :=
  match actionsByResult g f.id with
  | [] => [{ file := summariseFile f, produced_by := none,
             site_ids := [], note := some noProducerNote }]
  | producers =>
    producers.filterMap (fun actId =>
      (byId g actId).map (fun act =>
        { file := summariseFile f,
          produced_by := some { action := summariseAction act, tool := resolveTool g act,
                                inputs := partitionInputs g act },
          site_ids := directSiteIds g act,
          note := none }))

/-- Written from the spec text of SelectorResolver: three rules in
priority order, each yielding matches in graph order (a missing display
name is treated as the empty string, as the source does). -/
def resolverSpec (g : List Entity) (sel : String) : List Entity :=
  match g.find? (fun e => e.id == sel && hasType e "File") with
  | some e => [e]
  | none =>
    let exact := g.filter (fun e => hasType e "File" && e.alternateName == some sel)
    if exact.isEmpty then
      g.filter (fun e => hasType e "File" && strContains (e.alternateName.getD "") sel)
    else exact

/-! ### Characterization of the action indexes -/

theorem indexRefs_apply (actId : String) (refs : List Ref) :
    ∀ (m : String → List String) (x : String),
      indexRefs actId refs m x
        = m x ++ List.replicate ((refs.filterMap Ref.oidT).count x) actId := by
  induction refs with
  | nil => intro m x; simp [indexRefs]
  | cons r t ih =>
    intro m x
    have hstep : indexRefs actId (r :: t) m
        = indexRefs actId t (match r.oidT with
            | some k => idxAppend m k actId
            | none => m) := by
      simp [indexRefs]
    rw [hstep]
    cases h : r.oidT with
    | none =>
      simp only [List.filterMap_cons, h]
      exact ih m x
    | some k =>
      rw [ih (idxAppend m k actId) x]
      simp only [List.filterMap_cons, h]
      by_cases hk : x = k
      · subst hk
        simp [idxAppend, List.count_cons, List.replicate_succ]
      · have hk2 : ¬ ((x : String) == k) = true := by simpa using hk
        simp [idxAppend, hk, List.count_cons, hk2]

theorem index_fold_apply (key : Entity → List Ref) :
    ∀ (acts : List Entity) (m : String → List String) (x : String),
      (acts.foldl (fun m a => indexRefs a.id (key a) m) m) x
        = m x ++ acts.flatMap (fun a => List.replicate (((key a).filterMap Ref.oidT).count x) a.id) := by
  intro acts
  induction acts with
  | nil => intro m x; simp
  | cons a t ih =>
    intro m x
    simp only [List.foldl_cons, List.flatMap_cons]
    rw [ih, indexRefs_apply]
    simp [List.append_assoc]

theorem actionsByResult_apply (g : List Entity) (x : String) :
    actionsByResult g x
      = (actionsOf g).flatMap (fun a => List.replicate ((a.result.filterMap Ref.oidT).count x) a.id) :=
  index_fold_apply (fun a => a.result) (actionsOf g) (fun _ => []) x

theorem actionsByInput_apply (g : List Entity) (x : String) :
    actionsByInput g x
      = (actionsOf g).flatMap (fun a => List.replicate ((a.object.filterMap Ref.oidT).count x) a.id) :=
  index_fold_apply (fun a => a.object) (actionsOf g) (fun _ => []) x

theorem mem_actionsByResult (g : List Entity) (x aid : String) :
    aid ∈ actionsByResult g x
      ↔ ∃ a ∈ actionsOf g, a.id = aid ∧ x ∈ a.result.filterMap Ref.oidT := by
  rw [actionsByResult_apply]
  simp only [List.mem_flatMap, List.mem_replicate]
  constructor
  · rintro ⟨a, ha, hn, rfl⟩
    exact ⟨a, ha, rfl, List.count_pos_iff.mp (Nat.pos_of_ne_zero hn)⟩
  · rintro ⟨a, ha, rfl, hc⟩
    exact ⟨a, ha, Nat.pos_iff_ne_zero.mp (List.count_pos_iff.mpr hc), rfl⟩

theorem mem_actionsByInput (g : List Entity) (x aid : String) :
    aid ∈ actionsByInput g x
      ↔ ∃ a ∈ actionsOf g, a.id = aid ∧ x ∈ a.object.filterMap Ref.oidT := by
  rw [actionsByInput_apply]
  simp only [List.mem_flatMap, List.mem_replicate]
  constructor
  · rintro ⟨a, ha, hn, rfl⟩
    exact ⟨a, ha, rfl, List.count_pos_iff.mp (Nat.pos_of_ne_zero hn)⟩
  · rintro ⟨a, ha, rfl, hc⟩
    exact ⟨a, ha, Nat.pos_iff_ne_zero.mp (List.count_pos_iff.mpr hc), rfl⟩

theorem byId_isSome_of_mem (g : List Entity) (x : String) (h : x ∈ idsOf g) :
    (byId g x).isSome := by
  cases hb : byId g x with
  | none => exact absurd h (byId_eq_none g x hb)
  | some e => rfl

theorem mem_actionsByResult_isSome (g : List Entity) (x aid : String)
    (h : aid ∈ actionsByResult g x) : (byId g aid).isSome := by
  rcases (mem_actionsByResult g x aid).mp h with ⟨a, ha, rfl, _⟩
  exact byId_isSome_of_mem g a.id
    (List.mem_map_of_mem Entity.id (List.mem_of_mem_filter ha))

theorem mem_actionsByInput_isSome (g : List Entity) (x aid : String)
    (h : aid ∈ actionsByInput g x) : (byId g aid).isSome := by
  rcases (mem_actionsByInput g x aid).mp h with ⟨a, ha, rfl, _⟩
  exact byId_isSome_of_mem g a.id
    (List.mem_map_of_mem Entity.id (List.mem_of_mem_filter ha))

theorem oidT_eq_some_iff (r : Ref) (x : String) :
    r.oidT = some x ↔ (r.oid = some x ∧ x ≠ "") := by
  unfold Ref.oidT
  cases h : r.oid with
  | none => simp
  | some s =>
    by_cases hs : s = ""
    · subst hs
      simp only [if_pos rfl]
      constructor
      · intro he
        exact absurd he (by simp)
      · rintro ⟨he, hne⟩
        have h2 : "" = x := by injection he
        exact absurd h2.symm hne
    · simp only [if_neg hs]
      constructor
      · intro he
        have hsx : s = x := by injection he
        subst hsx
        exact ⟨he, hs⟩
      · exact fun hp => hp.1

theorem eq_of_nodup_map {α β : Type} (f : α → β) :
    ∀ (l : List α), (l.map f).Nodup → ∀ a ∈ l, ∀ b ∈ l, f a = f b → a = b := by
  intro l
  induction l with
  | nil => intro _ a ha; simp at ha
  | cons c t ih =>
    intro hnd a ha b hb hf
    simp only [List.map_cons, List.nodup_cons] at hnd
    rcases List.mem_cons.mp ha with rfl | hat
    · rcases List.mem_cons.mp hb with rfl | hbt
      · rfl
      · exact absurd (hf ▸ List.mem_map_of_mem f hbt) hnd.1
    · rcases List.mem_cons.mp hb with rfl | hbt
      · exact absurd (hf ▸ List.mem_map_of_mem f hat) hnd.1
      · exact ih hnd.2 a hat b hbt hf

/-! ### Claim C1 -/

/-- An entity with the empty-string id, plus an action listing it in
`result`: the `if oid:` truthiness guard of `_build_indexes` drops the
reference, so the index misses it. -/
def gC1 : List Entity :=
  [ { id := "" },
    { id := "a1", types := .one "CreateAction", result := [Ref.inline ""] } ]

/-- Counterexample for claim C1: in `gC1` the entity id `""` occurs in the
action's result list, yet `actions_by_result[""]` does not contain the
action, so the unrestricted iff of the claim fails. -/
theorem claim_C1_counterexample :
    ("" ∈ idsOf gC1)
    ∧ (∃ a ∈ actionsOf gC1,
        (∃ r ∈ a.result, r.oid = some "") ∧ a.id ∉ actionsByResult gC1 "") := by
  decide

/-- Claim C1 (amended): provided the graph's actions have pairwise
distinct ids and the entity id `x` is nonempty, `actions_by_result[x]`
contains an action's id iff the action's `result` list contains a
reference carrying id `x`, and symmetrically for `actions_by_input` and
`object`; moreover both index entries list the action ids in the order
the actions were encountered, one occurrence per matching reference (the
`bind`/`replicate` normal forms below), so an id may appear more than
once. -/
theorem claim_C1 (g : List Entity) (a : Entity) (x : String)
    (hnd : ((actionsOf g).map Entity.id).Nodup)
    (ha : a ∈ actionsOf g) (hx : x ≠ "") :
    (a.id ∈ actionsByResult g x ↔ ∃ r ∈ a.result, r.oid = some x)
    ∧ (a.id ∈ actionsByInput g x ↔ ∃ r ∈ a.object, r.oid = some x)
    ∧ actionsByResult g x
        = (actionsOf g).flatMap
            (fun b => List.replicate ((b.result.filterMap Ref.oidT).count x) b.id)
    ∧ actionsByInput g x
        = (actionsOf g).flatMap
            (fun b => List.replicate ((b.object.filterMap Ref.oidT).count x) b.id) := by
  have hmemT : ∀ (refs : List Ref), x ∈ refs.filterMap Ref.oidT ↔ ∃ r ∈ refs, r.oid = some x := by
    intro refs
    rw [List.mem_filterMap]
    constructor
    · rintro ⟨r, hr, hT⟩
      exact ⟨r, hr, ((oidT_eq_some_iff r x).mp hT).1⟩
    · rintro ⟨r, hr, hT⟩
      exact ⟨r, hr, (oidT_eq_some_iff r x).mpr ⟨hT, hx⟩⟩
  refine ⟨?_, ?_, actionsByResult_apply g x, actionsByInput_apply g x⟩
  · rw [mem_actionsByResult]
    constructor
    · rintro ⟨b, hb, hid, hc⟩
      have hba : b = a := eq_of_nodup_map Entity.id (actionsOf g) hnd b hb a ha hid
      subst hba
      exact (hmemT b.result).mp hc
    · intro hr
      exact ⟨a, ha, rfl, (hmemT a.result).mpr hr⟩
  · rw [mem_actionsByInput]
    constructor
    · rintro ⟨b, hb, hid, hc⟩
      have hba : b = a := eq_of_nodup_map Entity.id (actionsOf g) hnd b hb a ha hid
      subst hba
      exact (hmemT b.object).mp hc
    · intro hr
      exact ⟨a, ha, rfl, (hmemT a.object).mpr hr⟩

/-- A small well-formed graph for the C1 witness. -/
def aW1 : Entity :=
  { id := "a1", types := .one "CreateAction",
    result := [Ref.inline "f1"], object := [Ref.nested (some "p1")] }

def gW1 : List Entity :=
  [ aW1,
    { id := "f1", types := .one "File", alternateName := some "out.csv" },
    { id := "p1", types := .one "PropertyValue", name := some "site_id" } ]

/-- Witness for claim C1 at a concrete graph. -/
theorem claim_C1_witness :
    ("a1" ∈ actionsByResult gW1 "f1" ↔ ∃ r ∈ aW1.result, r.oid = some "f1")
    ∧ ("a1" ∈ actionsByInput gW1 "p1" ↔ ∃ r ∈ aW1.object, r.oid = some "p1") := by
  constructor
  · exact (claim_C1 gW1 aW1 "f1" (by decide) (by decide) (by decide)).1
  · exact (claim_C1 gW1 aW1 "p1" (by decide) (by decide) (by decide)).2.1

/-! ### Selector resolution under unique ids -/

theorem byId_foldl_acc (x : String) :
    ∀ (t : List Entity) (acc : Option Entity),
      t.foldl (fun acc e => if e.id = x then some e else acc) acc
        = match t.foldl (fun acc e => if e.id = x then some e else acc) none with
          | some e => some e
          | none => acc := by
  intro t
  induction t with
  | nil => intro acc; simp
  | cons b t ih =>
    intro acc
    simp only [List.foldl_cons]
    rw [ih (if b.id = x then some b else acc), ih (if b.id = x then some b else none)]
    by_cases hb : b.id = x
    · simp only [if_pos hb]
      cases t.foldl (fun acc e => if e.id = x then some e else acc) none <;> rfl
    · simp only [if_neg hb]
      cases t.foldl (fun acc e => if e.id = x then some e else acc) none <;> rfl

theorem byId_cons (a : Entity) (t : List Entity) (x : String) :
    byId (a :: t) x
      = match byId t x with
        | some e => some e
        | none => if a.id = x then some a else none := by
  unfold byId
  simp only [List.foldl_cons]
  rw [byId_foldl_acc x t (if a.id = x then some a else none)]

theorem byId_self (g : List Entity) (hnd : (idsOf g).Nodup) (e : Entity)
    (he : e ∈ g) : byId g e.id = some e := by
  cases hb : byId g e.id with
  | none => exact absurd (List.mem_map_of_mem Entity.id he) (byId_eq_none g e.id hb)
  | some e2 =>
    rcases byId_eq_some g e.id e2 hb with ⟨he2, hid⟩
    rw [eq_of_nodup_map Entity.id g hnd e2 he2 e he hid]

theorem find_of_byId_some_file (g : List Entity) (sel : String) (e : Entity)
    (hnd : (idsOf g).Nodup) (hb : byId g sel = some e) (hf : hasType e "File" = true) :
    g.find? (fun x => x.id == sel && hasType x "File") = some e := by
  induction g with
  | nil => simp [byId] at hb
  | cons a t ih =>
    have hnd2 : (idsOf t).Nodup := by
      simp only [idsOf, List.map_cons, List.nodup_cons] at hnd
      exact hnd.2
    have hhead : a.id ∉ idsOf t := by
      simp only [idsOf, List.map_cons, List.nodup_cons] at hnd
      exact hnd.1
    rcases byId_eq_some _ _ _ hb with ⟨hmem, hid⟩
    rcases List.mem_cons.mp hmem with rfl | het
    · rw [List.find?_cons, hid]
      simp [hf]
    · have hbt : byId t sel = some e := by
        rw [byId_cons] at hb
        cases hbt2 : byId t sel with
        | none =>
          rw [hbt2] at hb
          simp at hb
          rcases hb with ⟨hid2, rfl⟩
          have hc : a.id ∈ idsOf t := List.mem_map_of_mem Entity.id het
          exact (hhead hc).elim
        | some e2 => rw [hbt2] at hb; simpa using hb
      have hane : a.id ≠ sel := by
        intro he
        exact hhead (he ▸ hid ▸ List.mem_map_of_mem Entity.id het)
      rw [List.find?_cons]
      have : (a.id == sel && hasType a "File") = false := by
        simp [hane]
      rw [this]
      exact ih hnd2 hbt

theorem find_of_byId_some_nonfile (g : List Entity) (sel : String) (e : Entity)
    (hnd : (idsOf g).Nodup) (hb : byId g sel = some e) (hf : hasType e "File" = false) :
    g.find? (fun x => x.id == sel && hasType x "File") = none := by
  rw [List.find?_eq_none]
  intro x hx
  rcases byId_eq_some _ _ _ hb with ⟨hmem, hid⟩
  by_cases hxid : x.id = sel
  · have hxe : x = e := eq_of_nodup_map Entity.id g hnd x hx e hmem (hxid.trans hid.symm)
    subst hxe
    simp [hf]
  · simp [hxid]

theorem find_of_byId_none (g : List Entity) (sel : String)
    (hb : byId g sel = none) :
    g.find? (fun x => x.id == sel && hasType x "File") = none := by
  rw [List.find?_eq_none]
  intro x hx
  have : x.id ≠ sel := (byId_none_aux sel g none hb).1 x hx
  simp [this]

theorem insertNew_foldl :
    ∀ (l acc : List String), l.Nodup → (∀ x ∈ l, x ∉ acc) →
      l.foldl insertNew acc = acc ++ l := by
  intro l
  induction l with
  | nil => intro acc _ _; simp
  | cons a t ih =>
    intro acc hnd hdis
    simp only [List.foldl_cons]
    have hna : a ∉ acc := hdis a (List.mem_cons_self a t)
    have h1 : insertNew acc a = acc ++ [a] := by simp [insertNew, hna]
    rw [h1, ih (acc ++ [a]) (List.nodup_cons.mp hnd).2]
    · simp
    · intro x hx
      simp only [List.mem_append, List.mem_singleton]
      rintro (hxa | rfl)
      · exact hdis x (List.mem_cons_of_mem a hx) hxa
      · exact (List.nodup_cons.mp hnd).1 hx

theorem dictKeys_eq (g : List Entity) (hnd : (idsOf g).Nodup) :
    dictKeys g = idsOf g := by
  unfold dictKeys
  have h1 : g.foldl (fun ks e => insertNew ks e.id) [] = (idsOf g).foldl insertNew [] := by
    rw [idsOf, List.foldl_map]
  rw [h1, insertNew_foldl (idsOf g) [] hnd (by simp)]
  simp

theorem filterMap_id_of_mem {α : Type} (f : α → Option α) :
    ∀ (l : List α), (∀ e ∈ l, f e = some e) → l.filterMap f = l := by
  intro l
  induction l with
  | nil => intro _; simp
  | cons a t ih =>
    intro h
    rw [List.filterMap_cons, h a (List.mem_cons_self a t),
      ih (fun e he => h e (List.mem_cons_of_mem a he))]

theorem byIdValues_eq (g : List Entity) (hnd : (idsOf g).Nodup) :
    byIdValues g = g := by
  unfold byIdValues
  rw [dictKeys_eq g hnd, idsOf, List.filterMap_map]
  exact filterMap_id_of_mem _ g (fun e he => byId_self g hnd e he)

/-! ### Claim C3 -/

/-- Claim C3: on a graph with unique entity ids, `get_file_entities`
implements exactly the three-rule priority resolver written from the
spec: exact Artifact id match (singleton), else exact display-name
matches in graph order, else substring matches in graph order; in
particular an id match beats a name match held by a different artifact. -/
theorem claim_C3 (g : List Entity) (sel : String) (hnd : (idsOf g).Nodup) :
    getFileEntities g sel = resolverSpec g sel := by
  have hname : getFileEntitiesByName g sel
      = (let exact := g.filter (fun e => hasType e "File" && e.alternateName == some sel)
         if exact.isEmpty then
           g.filter (fun e => hasType e "File" && strContains (e.alternateName.getD "") sel)
         else exact) := by
    unfold getFileEntitiesByName findFilesByAltname
    rw [byIdValues_eq g hnd]
  unfold getFileEntities resolverSpec
  cases hb : byId g sel with
  | none =>
    rw [find_of_byId_none g sel hb, hname]
  | some e =>
    by_cases hf : hasType e "File"
    · rw [find_of_byId_some_file g sel e hnd hb hf]
      simp [hf]
    · rw [find_of_byId_some_nonfile g sel e hnd hb (by simpa using hf)]
      simp only [if_neg hf]
      rw [hname]

/-- A graph where a different artifact's display name collides with an
artifact id: `"f1"` is the id of one File and the display name of
another. -/
def gW3 : List Entity :=
  [ { id := "f2", types := .one "File", alternateName := some "f1" },
    { id := "f1", types := .one "File", alternateName := some "data.csv" } ]

/-- Witness for claim C3: resolving `"f1"` follows the spec resolver
(and indeed returns only the id-matched artifact). -/
theorem claim_C3_witness :
    getFileEntities gW3 "f1" = resolverSpec gW3 "f1"
    ∧ getFileEntities gW3 "f1"
        = [{ id := "f1", types := .one "File", alternateName := some "data.csv" }] :=
  ⟨claim_C3 gW3 "f1" (by decide), by decide⟩

/-! ### Characterization of input partitioning -/

theorem kindOf_artifact (e : Entity) :
    (kindOf e == Kind.artifact) = hasType e "File" := by
  unfold kindOf
  by_cases h1 : hasType e "File"
  · simp [h1]
  · simp only [if_neg h1]
    by_cases h2 : hasType e "Dataset"
    · simp [h2, h1]
    · simp only [if_neg h2]
      by_cases h3 : hasType e "PropertyValue" <;> simp [h3, h1]

theorem partitionRefs_acc (g : List Entity) :
    ∀ (objs : List Ref) (b : Buckets),
      objs.foldl (bucketStep g) b
        = { files := b.files ++
              (((objs.filterMap (resolveRef g)).filter
                (fun e => kindOf e == Kind.artifact)).map summariseFile),
            datasets := b.datasets ++
              (((objs.filterMap (resolveRef g)).filter
                (fun e => kindOf e == Kind.container)).map summariseDataset),
            parameters := b.parameters ++
              (((objs.filterMap (resolveRef g)).filter
                (fun e => kindOf e == Kind.param)).map summariseParam),
            other := b.other ++
              (((objs.filterMap (resolveRef g)).filter
                (fun e => kindOf e == Kind.other)).map
                (fun e => { id := e.id, type := e.types })) } := by
  intro objs
  induction objs with
  | nil => intro b; simp
  | cons r t ih =>
    intro b
    simp only [List.foldl_cons, List.filterMap_cons]
    cases hr : resolveRef g r with
    | none =>
      have hb : bucketStep g b r = b := by simp [bucketStep, hr]
      rw [hb, ih b]
    | some ent =>
      by_cases h1 : hasType ent "File"
      · have hb : bucketStep g b r = { b with files := b.files ++ [summariseFile ent] } := by
          simp [bucketStep, hr, h1]
        rw [hb, ih]
        simp [kindOf, h1, List.append_assoc]
      · by_cases h2 : hasType ent "Dataset"
        · have hb : bucketStep g b r
              = { b with datasets := b.datasets ++ [summariseDataset ent] } := by
            simp [bucketStep, hr, h1, h2]
          rw [hb, ih]
          simp [kindOf, h1, h2, List.append_assoc]
        · by_cases h3 : hasType ent "PropertyValue"
          · have hb : bucketStep g b r
                = { b with parameters := b.parameters ++ [summariseParam ent] } := by
              simp [bucketStep, hr, h1, h2, h3]
            rw [hb, ih]
            simp [kindOf, h1, h2, h3, List.append_assoc]
          · have hb : bucketStep g b r
                = { b with other := b.other ++ [{ id := ent.id, type := ent.types }] } := by
              simp [bucketStep, hr, h1, h2, h3]
            rw [hb, ih]
            simp [kindOf, h1, h2, h3, List.append_assoc]

theorem partitionRefs_eq (g : List Entity) (objs : List Ref) :
    partitionRefs g objs
      = { files := ((objs.filterMap (resolveRef g)).filter
            (fun e => kindOf e == Kind.artifact)).map summariseFile,
          datasets := ((objs.filterMap (resolveRef g)).filter
            (fun e => kindOf e == Kind.container)).map summariseDataset,
          parameters := ((objs.filterMap (resolveRef g)).filter
            (fun e => kindOf e == Kind.param)).map summariseParam,
          other := ((objs.filterMap (resolveRef g)).filter
            (fun e => kindOf e == Kind.other)).map
            (fun e => { id := e.id, type := e.types }) } := by
  unfold partitionRefs
  rw [partitionRefs_acc g objs {}]
  simp

theorem mem_resolved (g : List Entity) (objs : List Ref) (e : Entity)
    (h : e ∈ objs.filterMap (resolveRef g)) : e ∈ g := by
  rcases List.mem_filterMap.mp h with ⟨r, _, hr⟩
  unfold resolveRef at hr
  cases ho : r.oid with
  | none => rw [ho] at hr; cases hr
  | some k =>
    rw [ho] at hr
    exact (byId_eq_some g k e hr).1

theorem mem_partition_files (g : List Entity) (objs : List Ref) (fs : FileSummary)
    (h : fs ∈ (partitionRefs g objs).files) :
    ∃ ent ∈ g, hasType ent "File" = true ∧ fs = summariseFile ent := by
  rw [partitionRefs_eq] at h
  simp only at h
  rcases List.mem_map.mp h with ⟨ent, hent, rfl⟩
  have hf := List.of_mem_filter hent
  rw [kindOf_artifact] at hf
  exact ⟨ent, mem_resolved g objs ent (List.mem_of_mem_filter hent), hf, rfl⟩

theorem mem_partition_datasets (g : List Entity) (objs : List Ref) (ds : DatasetSummary)
    (h : ds ∈ (partitionRefs g objs).datasets) :
    ∃ ent ∈ g, ds = summariseDataset ent := by
  rw [partitionRefs_eq] at h
  simp only at h
  rcases List.mem_map.mp h with ⟨ent, hent, rfl⟩
  exact ⟨ent, mem_resolved g objs ent (List.mem_of_mem_filter hent), rfl⟩

/-- The code computes `site_ids` from the parameters bucket; the claim
computes it directly from the action's Parameter-kind inputs.  They
agree. -/
theorem bucketSiteIds_eq_direct (g : List Entity) (act : Entity) :
    bucketSiteIds (partitionInputs g act) = directSiteIds g act := by
  unfold bucketSiteIds partitionInputs directSiteIds resolvedInputs
  rw [partitionRefs_eq]
  simp only
  rw [List.filter_map, List.map_map]
  have hcomp : ((fun p : ParamSummary => p.name == some "site_id") ∘ summariseParam)
      = (fun e : Entity => e.name == some "site_id") := rfl
  rw [hcomp, List.filter_filter]
  have hpred : (fun a : Entity => (a.name == some "site_id") && (kindOf a == Kind.param))
      = (fun ent : Entity => (kindOf ent == Kind.param) && (ent.name == some "site_id")) := by
    funext a
    exact Bool.and_comm _ _
  rw [hpred]
  rfl

/-! ### Characterization of get_file_lineage -/

theorem lineageRecord_eq (g : List Entity) (f : Entity) (aid : String) :
    lineageRecord g f aid
      = (byId g aid).map (fun act =>
          { file := summariseFile f,
            produced_by := some { action := summariseAction act, tool := resolveTool g act,
                                  inputs := partitionInputs g act },
            site_ids := directSiteIds g act,
            note := none }) := by
  unfold lineageRecord
  cases hb : byId g aid with
  | none => rfl
  | some act =>
    simp only [Option.map_some']
    rw [bucketSiteIds_eq_direct]

theorem lineageRecord_isSome (g : List Entity) (f : Entity) (aid : String)
    (h : (byId g aid).isSome) : (lineageRecord g f aid).isSome := by
  rw [lineageRecord_eq]
  cases hb : byId g aid with
  | none => rw [hb] at h; cases h
  | some act => rfl

theorem filterMap_length_of_isSome {α β : Type} (f : α → Option β) :
    ∀ (l : List α), (∀ a ∈ l, (f a).isSome) → (l.filterMap f).length = l.length := by
  intro l
  induction l with
  | nil => intro _; rfl
  | cons a t ih =>
    intro h
    have ha := h a (List.mem_cons_self a t)
    cases hf : f a with
    | none => rw [hf] at ha; cases ha
    | some b =>
      rw [List.filterMap_cons, hf]
      simp only [List.length_cons]
      rw [ih (fun x hx => h x (List.mem_cons_of_mem a hx))]

theorem lineage_inner (g : List Entity) (f : Entity) :
    ∀ (ps : List String) (out : List LineageRecord),
      (∀ aid ∈ ps, (byId g aid).isSome) →
      ps.foldl (lineageInnerStep g f) (some out)
        = some (out ++ ps.filterMap (lineageRecord g f)) := by
  intro ps
  induction ps with
  | nil => intro out _; simp
  | cons aid t ih =>
    intro out h
    have ha : (lineageRecord g f aid).isSome :=
      lineageRecord_isSome g f aid (h aid (List.mem_cons_self aid t))
    cases hr : lineageRecord g f aid with
    | none => rw [hr] at ha; cases ha
    | some r =>
      have hstep : lineageInnerStep g f (some out) aid = some (out ++ [r]) := by
        unfold lineageInnerStep
        rw [Option.some_bind, hr, Option.map_some']
      rw [List.foldl_cons, hstep,
        ih (out ++ [r]) (fun x hx => h x (List.mem_cons_of_mem aid hx)),
        List.filterMap_cons, hr]
      simp

/-- The per-file processing of `get_file_lineage`, in closed form. -/
def lineageFor (g : List Entity) (f : Entity) : List LineageRecord :=
  match actionsByResult g f.id with
  | [] => [lineageNoProd f]
  | producers => producers.filterMap (lineageRecord g f)

theorem lineageStep_some (g : List Entity) (f : Entity) (out : List LineageRecord) :
    lineageStep g (some out) f = some (out ++ lineageFor g f) := by
  unfold lineageStep lineageFor
  rw [Option.some_bind]
  cases hp : actionsByResult g f.id with
  | nil => rfl
  | cons p pt =>
    show (p :: pt).foldl (lineageInnerStep g f) (some out)
        = some (out ++ (p :: pt).filterMap (lineageRecord g f))
    apply lineage_inner
    intro aid ha
    exact mem_actionsByResult_isSome g f.id aid (hp ▸ ha)

theorem getFileLineage_eq (g : List Entity) (sel : String) :
    getFileLineage g sel = some ((getFileEntities g sel).flatMap (lineageFor g)) := by
  unfold getFileLineage
  have hgen : ∀ (files : List Entity) (out : List LineageRecord),
      files.foldl (lineageStep g) (some out) = some (out ++ files.flatMap (lineageFor g)) := by
    intro files
    induction files with
    | nil => intro out; simp
    | cons f t ih =>
      intro out
      rw [List.foldl_cons, lineageStep_some, ih, List.flatMap_cons]
      simp
  exact hgen (getFileEntities g sel) []

theorem lineageFor_eq_spec (g : List Entity) (f : Entity) :
    lineageFor g f = lineageSpecFor g f := by
  unfold lineageFor lineageSpecFor
  cases hp : actionsByResult g f.id with
  | nil => rfl
  | cons p pt =>
    have hfun : lineageRecord g f = (fun actId =>
        (byId g actId).map (fun act =>
          { file := summariseFile f,
            produced_by := some { action := summariseAction act, tool := resolveTool g act,
                                  inputs := partitionInputs g act },
            site_ids := directSiteIds g act,
            note := none })) :=
      funext (fun aid => lineageRecord_eq g f aid)
    rw [hfun]

/-! ### Claim C4 -/

/-- Claim C4: `get_file_lineage` emits, for each resolved artifact with no
producer, exactly the one no-producer record, and for each resolved
artifact with producers one record per producing action, whose
`produced_by` carries the action/tool summaries and the bucketed inputs,
and whose `site_ids` is the ordered list of values of the action's
Parameter inputs named `"site_id"` (the `lineageSpecFor` normal form,
written from the claim); moreover the number of records equals the
number of producing actions. -/
theorem claim_C4 (g : List Entity) (sel : String) :
    getFileLineage g sel = some ((getFileEntities g sel).flatMap (lineageSpecFor g))
    ∧ (∀ f ∈ getFileEntities g sel, actionsByResult g f.id ≠ [] →
        (lineageSpecFor g f).length = (actionsByResult g f.id).length) := by
  constructor
  · rw [getFileLineage_eq]
    have hfun : ∀ f, lineageFor g f = lineageSpecFor g f := lineageFor_eq_spec g
    rw [funext hfun]
  · intro f _ hne
    rw [← lineageFor_eq_spec]
    unfold lineageFor
    cases hp : actionsByResult g f.id with
    | nil => exact absurd hp hne
    | cons p pt =>
      apply filterMap_length_of_isSome
      intro aid ha
      exact lineageRecord_isSome g f aid (mem_actionsByResult_isSome g f.id aid (hp ▸ ha))

/-- Witness graph for claim C4: `test_output.csv` produced by an action
whose inputs include a `site_id` Parameter. -/
def gW4 : List Entity :=
  [ { id := "a1", types := .one "CreateAction",
      instrument := some (Ref.nested (some "t1")),
      object := [Ref.nested (some "in1"), Ref.nested (some "p1")],
      result := [Ref.nested (some "out1")] },
    { id := "t1", types := .one "SoftwareApplication", name := some "tool" },
    { id := "in1", types := .one "File", alternateName := some "input.csv" },
    { id := "p1", types := .one "PropertyValue", name := some "site_id",
      value := some "site001" },
    { id := "out1", types := .one "File", alternateName := some "test_output.csv",
      sha1 := some "abc" } ]

/-- The output-file entity of `gW4`. -/
def fW4 : Entity :=
  { id := "out1", types := .one "File", alternateName := some "test_output.csv",
    sha1 := some "abc" }

/-- Witness for claim C4: the lineage of `test_output.csv` matches the
spec normal form, has one record for the one producer, and carries
`site_ids = ["site001"]`. -/
theorem claim_C4_witness :
    getFileLineage gW4 "test_output.csv"
      = some ((getFileEntities gW4 "test_output.csv").flatMap (lineageSpecFor gW4))
    ∧ (lineageSpecFor gW4 fW4).length = (actionsByResult gW4 "out1").length
    ∧ (getFileLineage gW4 "test_output.csv").map
        (fun l => l.map (fun r => r.site_ids)) = some [[some "site001"]] := by
  refine ⟨(claim_C4 gW4 "test_output.csv").1, ?_, by decide⟩
  exact (claim_C4 gW4 "test_output.csv").2 fW4 (by decide) (by decide)

/-! ### Claim C8 -/

/-- Claim C8: when the selector resolves to no entity, the queries return
empty results rather than raising: the lineage is the empty list (and no
`KeyError` path is taken), the ancestry is the all-empty structure, and
the descendants result is likewise all-empty. -/
theorem claim_C8 (g : List Entity) (sel : String)
    (h : getFileEntities g sel = []) :
    getFileLineage g sel = some []
    ∧ (∀ md, getFileAncestry g sel md = ⟨[], [], [], []⟩)
    ∧ (∀ md, getFileDescendants g sel md = ⟨[], [], [], [], []⟩) := by
  refine ⟨?_, ?_, ?_⟩
  · rw [getFileLineage_eq, h]
    rfl
  · intro md
    unfold getFileAncestry
    rw [h]
    rfl
  · intro md
    unfold getFileDescendants
    rw [h]
    rfl

/-- Witness for claim C8 on an empty graph and an unresolvable selector. -/
theorem claim_C8_witness :
    getFileLineage [] "nonexistent.csv" = some []
    ∧ getFileAncestry [] "nonexistent.csv" none = ⟨[], [], [], []⟩
    ∧ getFileDescendants [] "nonexistent.csv" none = ⟨[], [], [], [], []⟩ := by
  have h := claim_C8 [] "nonexistent.csv" (by decide)
  exact ⟨h.1, h.2.1 none, h.2.2 none⟩

/-! ### Generic fold lemmas -/

theorem foldl_pres {α β γ : Type} (f : β → α → β) (proj : β → γ)
    (h : ∀ b a, proj (f b a) = proj b) :
    ∀ (l : List α) (b : β), proj (l.foldl f b) = proj b := by
  intro l
  induction l with
  | nil => intro b; rfl
  | cons a t ih =>
    intro b
    rw [List.foldl_cons, ih (f b a), h b a]

theorem foldl_mem_mono {α β γ : Type} (f : β → α → β) (proj : β → List γ)
    (h : ∀ b a x, x ∈ proj b → x ∈ proj (f b a)) :
    ∀ (l : List α) (b : β) (x : γ), x ∈ proj b → x ∈ proj (l.foldl f b) := by
  intro l
  induction l with
  | nil => intro b x hx; exact hx
  | cons a t ih =>
    intro b x hx
    exact ih (f b a) x (h b a x hx)

theorem foldl_mem_new {α β γ : Type} (f : β → α → β) (proj : β → List γ)
    (P : α → γ → Prop)
    (h : ∀ b a x, x ∈ proj (f b a) → x ∈ proj b ∨ P a x) :
    ∀ (l : List α) (b : β) (x : γ),
      x ∈ proj (l.foldl f b) → x ∈ proj b ∨ ∃ a ∈ l, P a x := by
  intro l
  induction l with
  | nil => intro b x hx; exact Or.inl hx
  | cons a t ih =>
    intro b x hx
    rcases ih (f b a) x hx with h1 | ⟨a2, ha2, hp⟩
    · rcases h b a x h1 with h2 | hp
      · exact Or.inl h2
      · exact Or.inr ⟨a, List.mem_cons_self a t, hp⟩
    · exact Or.inr ⟨a2, List.mem_cons_of_mem a ha2, hp⟩

/-! ### Step lemmas for the ancestry walker -/

theorem ancEnqueue_visitedA (md : Option Nat) (aid : String) (d : Nat)
    (a : AncAcc) (i : String) : (ancEnqueue md aid d a i).visitedA = a.visitedA := by
  unfold ancEnqueue
  by_cases h : depthOk md d <;> simp [h]

theorem ancEnqueue_actionNodes (md : Option Nat) (aid : String) (d : Nat)
    (a : AncAcc) (i : String) : (ancEnqueue md aid d a i).actionNodes = a.actionNodes := by
  unfold ancEnqueue
  by_cases h : depthOk md d <;> simp [h]

theorem ancEnqueue_edges (md : Option Nat) (aid : String) (d : Nat)
    (a : AncAcc) (i : String) :
    (ancEnqueue md aid d a i).edges = a.edges ++ [{ type := "used", action := aid, entity := i }] := by
  unfold ancEnqueue
  by_cases h : depthOk md d <;> simp [h]

theorem ancEnqueue_queue_new (md : Option Nat) (aid : String) (d : Nat)
    (a : AncAcc) (i : String) (x : String × Nat)
    (hx : x ∈ (ancEnqueue md aid d a i).queue) : x ∈ a.queue ∨ x = (i, d + 1) := by
  unfold ancEnqueue at hx
  by_cases h : depthOk md d
  · simp [h] at hx
    rcases hx with hx | hx
    · exact Or.inl hx
    · exact Or.inr (by simp [hx])
  · simp [h] at hx
    exact Or.inl hx

theorem depthOk_zero (d : Nat) : depthOk (some 0) d = false := by
  simp [depthOk]

theorem ancEnqueue_queue_zero (aid : String) (d : Nat) (a : AncAcc) (i : String) :
    (ancEnqueue (some 0) aid d a i).queue = a.queue := by
  unfold ancEnqueue
  rw [depthOk_zero]
  simp

theorem ancAction_edges_mono (g : List Entity) (md : Option Nat) (entId : String) (d : Nat)
    (a : AncAcc) (aid : String) (x : Edge) (hx : x ∈ a.edges) :
    x ∈ (ancAction g md entId d a aid).edges := by
  unfold ancAction
  cases hb : byId g aid with
  | none => exact hx
  | some act =>
    simp only
    by_cases hv : aid ∈ a.visitedA
    · simp [hv]
      exact Or.inl hx
    · simp only [if_neg hv]
      apply foldl_mem_mono _ AncAcc.edges
      · intro b f2 y hy
        rw [ancEnqueue_edges]
        exact List.mem_append_left _ hy
      · apply foldl_mem_mono _ AncAcc.edges
        · intro b f2 y hy
          rw [ancEnqueue_edges]
          exact List.mem_append_left _ hy
        · simp only
          exact List.mem_append_left _ hx

theorem ancAction_gen_edge (g : List Entity) (md : Option Nat) (entId : String) (d : Nat)
    (a : AncAcc) (aid : String) (hs : (byId g aid).isSome) :
    ({ type := "generated", action := aid, entity := entId } : Edge)
      ∈ (ancAction g md entId d a aid).edges := by
  unfold ancAction
  cases hb : byId g aid with
  | none => rw [hb] at hs; cases hs
  | some act =>
    simp only
    by_cases hv : aid ∈ a.visitedA
    · simp [hv]
    · simp only [if_neg hv]
      apply foldl_mem_mono _ AncAcc.edges
      · intro b f2 y hy
        rw [ancEnqueue_edges]
        exact List.mem_append_left _ hy
      · apply foldl_mem_mono _ AncAcc.edges
        · intro b f2 y hy
          rw [ancEnqueue_edges]
          exact List.mem_append_left _ hy
        · simp

theorem ancAction_actionNodes_new (g : List Entity) (md : Option Nat) (entId : String)
    (d : Nat) (a : AncAcc) (aid : String) (kv : String × ActionRecord)
    (hkv : kv ∈ (ancAction g md entId d a aid).actionNodes) :
    kv ∈ a.actionNodes ∨ (kv.1 = aid ∧ (byId g kv.1).isSome) := by
  unfold ancAction at hkv
  cases hb : byId g aid with
  | none => rw [hb] at hkv; exact Or.inl hkv
  | some act =>
    rw [hb] at hkv
    simp only at hkv
    by_cases hv : aid ∈ a.visitedA
    · simp [hv] at hkv
      exact Or.inl hkv
    · simp only [if_neg hv] at hkv
      rw [foldl_pres (fun b (ds : DatasetSummary) => ancEnqueue md aid d b ds.id)
          AncAcc.actionNodes (fun b ds => ancEnqueue_actionNodes md aid d b ds.id),
        foldl_pres (fun b (fs : FileSummary) => ancEnqueue md aid d b fs.id)
          AncAcc.actionNodes (fun b fs => ancEnqueue_actionNodes md aid d b fs.id)]
        at hkv
      simp only [List.mem_append, List.mem_singleton] at hkv
      rcases hkv with hkv | hkv
      · exact Or.inl hkv
      · refine Or.inr ⟨by rw [hkv], ?_⟩
        rw [hkv]
        simp [hb]

theorem ancAction_queue_new (g : List Entity) (md : Option Nat) (entId : String) (d : Nat)
    (a : AncAcc) (aid : String) (x : String × Nat)
    (hx : x ∈ (ancAction g md entId d a aid).queue) :
    x ∈ a.queue ∨ x.1 ∈ idsOf g := by
  unfold ancAction at hx
  cases hb : byId g aid with
  | none => rw [hb] at hx; exact Or.inl hx
  | some act =>
    rw [hb] at hx
    simp only at hx
    by_cases hv : aid ∈ a.visitedA
    · simp [hv] at hx
      exact Or.inl hx
    · simp only [if_neg hv] at hx
      have hds := foldl_mem_new _ AncAcc.queue
        (fun (ds : DatasetSummary) x => x.1 ∈ idsOf g ∨ x = (ds.id, d + 1))
        (fun b ds y hy => by
          rcases ancEnqueue_queue_new md aid d b ds.id y hy with h1 | h1
          · exact Or.inl h1
          · exact Or.inr (Or.inr h1))
        (partitionInputs g act).datasets _ x hx
      rcases hds with hfs | ⟨ds, hds2, hp⟩
      · have hfl := foldl_mem_new _ AncAcc.queue
          (fun (fs : FileSummary) x => x = (fs.id, d + 1))
          (fun b fs y hy => ancEnqueue_queue_new md aid d b fs.id y hy)
          (partitionInputs g act).files _ x hfs
        rcases hfl with h1 | ⟨fs, hfs2, rfl⟩
        · exact Or.inl h1
        · rcases mem_partition_files g act.object fs hfs2 with ⟨ent, hent, _, rfl⟩
          exact Or.inr (List.mem_map_of_mem Entity.id hent)
      · rcases hp with hp | rfl
        · exact Or.inr hp
        · rcases mem_partition_datasets g act.object ds hds2 with ⟨ent, hent, rfl⟩
          exact Or.inr (List.mem_map_of_mem Entity.id hent)

theorem ancAction_queue_zero (g : List Entity) (entId : String) (d : Nat)
    (a : AncAcc) (aid : String) :
    (ancAction g (some 0) entId d a aid).queue = a.queue := by
  unfold ancAction
  cases hb : byId g aid with
  | none => rfl
  | some act =>
    simp only
    by_cases hv : aid ∈ a.visitedA
    · simp [hv]
    · simp only [if_neg hv]
      rw [foldl_pres (fun b (ds : DatasetSummary) => ancEnqueue (some 0) aid d b ds.id)
          AncAcc.queue (fun b ds => ancEnqueue_queue_zero aid d b ds.id),
        foldl_pres (fun b (fs : FileSummary) => ancEnqueue (some 0) aid d b fs.id)
          AncAcc.queue (fun b fs => ancEnqueue_queue_zero aid d b fs.id)]

theorem fold_ancAction_edges_mono (g : List Entity) (md : Option Nat) (entId : String)
    (d : Nat) (l : List String) (a : AncAcc) (x : Edge) (hx : x ∈ a.edges) :
    x ∈ (l.foldl (ancAction g md entId d) a).edges :=
  foldl_mem_mono _ AncAcc.edges
    (fun b aid y hy => ancAction_edges_mono g md entId d b aid y hy) l a x hx

theorem fold_ancAction_gen_edge (g : List Entity) (md : Option Nat) (entId : String)
    (d : Nat) :
    ∀ (l : List String) (a : AncAcc) (aid : String), aid ∈ l → (byId g aid).isSome →
      ({ type := "generated", action := aid, entity := entId } : Edge)
        ∈ (l.foldl (ancAction g md entId d) a).edges := by
  intro l
  induction l with
  | nil => intro a aid h; simp at h
  | cons b t ih =>
    intro a aid h hs
    rcases List.mem_cons.mp h with rfl | ht
    · rw [List.foldl_cons]
      exact fold_ancAction_edges_mono g md entId d t _ _
        (ancAction_gen_edge g md entId d a aid hs)
    · rw [List.foldl_cons]
      exact ih _ aid ht hs

theorem fold_ancAction_actionNodes_new (g : List Entity) (md : Option Nat) (entId : String)
    (d : Nat) (l : List String) (a : AncAcc) (kv : String × ActionRecord)
    (hkv : kv ∈ (l.foldl (ancAction g md entId d) a).actionNodes) :
    kv ∈ a.actionNodes ∨ (kv.1 ∈ l ∧ (byId g kv.1).isSome) := by
  rcases foldl_mem_new _ AncAcc.actionNodes
    (fun aid kv => kv.1 = aid ∧ (byId g kv.1).isSome)
    (fun b aid y hy => ancAction_actionNodes_new g md entId d b aid y hy) l a kv hkv
    with h1 | ⟨aid, ha, heq, hsome⟩
  · exact Or.inl h1
  · exact Or.inr ⟨heq ▸ ha, hsome⟩

theorem fold_ancAction_queue_new (g : List Entity) (md : Option Nat) (entId : String)
    (d : Nat) (l : List String) (a : AncAcc) (x : String × Nat)
    (hx : x ∈ (l.foldl (ancAction g md entId d) a).queue) :
    x ∈ a.queue ∨ x.1 ∈ idsOf g := by
  rcases foldl_mem_new _ AncAcc.queue (fun _ x => x.1 ∈ idsOf g)
    (fun b aid y hy => ancAction_queue_new g md entId d b aid y hy) l a x hx
    with h1 | ⟨_, _, hp⟩
  · exact Or.inl h1
  · exact Or.inr hp

theorem fold_ancAction_queue_zero (g : List Entity) (entId : String) (d : Nat)
    (l : List String) (a : AncAcc) :
    (l.foldl (ancAction g (some 0) entId d) a).queue = a.queue :=
  foldl_pres _ AncAcc.queue (fun b aid => ancAction_queue_zero g entId d b aid) l a

/-! ### Invariants of the ancestry loop -/

/-- Wellformedness of an `entity_nodes` entry: it is the summary of the
entity the key resolves to, classified File-first. -/
def entNodeOk (g : List Entity) (kv : String × NodeSummary) : Prop :=
  ∃ ent, byId g kv.1 = some ent ∧
    ((hasType ent "File" = true ∧ kv.2 = NodeSummary.file (summariseFile ent))
     ∨ (hasType ent "File" = false ∧ hasType ent "Dataset" = true
        ∧ kv.2 = NodeSummary.dataset (summariseDataset ent)))

theorem ancLoop_nodup (g : List Entity) (md : Option Nat) :
    ∀ (s : AncState), s.visitedE.Nodup → (ancLoop g md s).visitedE.Nodup := by
  intro s
  induction s using ancLoop.induct g md with
  | case1 vE vA en an ed =>
    intro h
    rw [ancLoop]
    exact h
  | case2 entId depth rest vE vA en an ed hv ih =>
    intro h
    rw [ancLoop]
    simp only [if_pos hv]
    exact ih h
  | case3 entId depth rest vE vA en an ed hv hb ent hFile a ih =>
    intro h
    rw [ancLoop]
    simp only [if_neg hv, dif_pos hb, if_pos hFile]
    exact ih (by simp [List.nodup_append, h, hv])
  | case4 entId depth rest vE vA en an ed hv hb ent hFile hDs a ih =>
    intro h
    rw [ancLoop]
    simp only [if_neg hv, dif_pos hb, if_neg hFile, if_pos hDs]
    exact ih (by simp [List.nodup_append, h, hv])
  | case5 entId depth rest vE vA en an ed hv hb ent hFile hDs ih =>
    intro h
    rw [ancLoop]
    simp only [if_neg hv, dif_pos hb, if_neg hFile, if_neg hDs]
    exact ih (by simp [List.nodup_append, h, hv])
  | case6 entId depth rest vE vA en an ed hv hb ih =>
    intro h
    rw [ancLoop]
    simp only [if_neg hv, dif_neg hb]
    exact ih (by simp [List.nodup_append, h, hv])

theorem ancLoop_visited_sub (g : List Entity) (md : Option Nat) :
    ∀ (s : AncState), ∀ x ∈ (ancLoop g md s).visitedE,
      x ∈ s.visitedE ∨ x ∈ s.queue.map Prod.fst ∨ x ∈ idsOf g := by
  intro s
  induction s using ancLoop.induct g md with
  | case1 vE vA en an ed =>
    intro x hx
    rw [ancLoop] at hx
    exact Or.inl hx
  | case2 entId depth rest vE vA en an ed hv ih =>
    intro x hx
    rw [ancLoop] at hx
    simp only [if_pos hv] at hx
    rcases ih x hx with h1 | h1 | h1
    · exact Or.inl h1
    · exact Or.inr (Or.inl (by simp only [List.map_cons]; exact List.mem_cons_of_mem _ h1))
    · exact Or.inr (Or.inr h1)
  | case3 entId depth rest vE vA en an ed hv hb ent hFile a ih =>
    intro x hx
    rw [ancLoop] at hx
    simp only [if_neg hv, dif_pos hb, if_pos hFile] at hx
    rcases ih x hx with h1 | h1 | h1
    · rcases List.mem_append.mp h1 with h2 | h2
      · exact Or.inl h2
      · rw [List.mem_singleton] at h2
        subst h2
        exact Or.inr (Or.inl (by simp))
    · rcases List.mem_map.mp h1 with ⟨p, hp, rfl⟩
      rcases fold_ancAction_queue_new g md entId depth _ _ p hp with h2 | h2
      · exact Or.inr (Or.inl (by
          simp only [List.map_cons]
          exact List.mem_cons_of_mem _ (List.mem_map_of_mem Prod.fst h2)))
      · exact Or.inr (Or.inr h2)
    · exact Or.inr (Or.inr h1)
  | case4 entId depth rest vE vA en an ed hv hb ent hFile hDs a ih =>
    intro x hx
    rw [ancLoop] at hx
    simp only [if_neg hv, dif_pos hb, if_neg hFile, if_pos hDs] at hx
    rcases ih x hx with h1 | h1 | h1
    · rcases List.mem_append.mp h1 with h2 | h2
      · exact Or.inl h2
      · rw [List.mem_singleton] at h2
        subst h2
        exact Or.inr (Or.inl (by simp))
    · rcases List.mem_map.mp h1 with ⟨p, hp, rfl⟩
      rcases fold_ancAction_queue_new g md entId depth _ _ p hp with h2 | h2
      · exact Or.inr (Or.inl (by
          simp only [List.map_cons]
          exact List.mem_cons_of_mem _ (List.mem_map_of_mem Prod.fst h2)))
      · exact Or.inr (Or.inr h2)
    · exact Or.inr (Or.inr h1)
  | case5 entId depth rest vE vA en an ed hv hb ent hFile hDs ih =>
    intro x hx
    rw [ancLoop] at hx
    simp only [if_neg hv, dif_pos hb, if_neg hFile, if_neg hDs] at hx
    rcases ih x hx with h1 | h1 | h1
    · rcases List.mem_append.mp h1 with h2 | h2
      · exact Or.inl h2
      · rw [List.mem_singleton] at h2
        subst h2
        exact Or.inr (Or.inl (by simp))
    · exact Or.inr (Or.inl (by
        simp only [List.map_cons]
        exact List.mem_cons_of_mem _ h1))
    · exact Or.inr (Or.inr h1)
  | case6 entId depth rest vE vA en an ed hv hb ih =>
    intro x hx
    rw [ancLoop] at hx
    simp only [if_neg hv, dif_neg hb] at hx
    rcases ih x hx with h1 | h1 | h1
    · rcases List.mem_append.mp h1 with h2 | h2
      · exact Or.inl h2
      · rw [List.mem_singleton] at h2
        subst h2
        exact Or.inr (Or.inl (by simp))
    · exact Or.inr (Or.inl (by
        simp only [List.map_cons]
        exact List.mem_cons_of_mem _ h1))
    · exact Or.inr (Or.inr h1)

theorem ancLoop_entityNodes_ok (g : List Entity) (md : Option Nat) :
    ∀ (s : AncState), (∀ kv ∈ s.entityNodes, entNodeOk g kv) →
      ∀ kv ∈ (ancLoop g md s).entityNodes, entNodeOk g kv := by
  intro s
  induction s using ancLoop.induct g md with
  | case1 vE vA en an ed =>
    intro h kv hkv
    rw [ancLoop] at hkv
    exact h kv hkv
  | case2 entId depth rest vE vA en an ed hv ih =>
    intro h kv hkv
    rw [ancLoop] at hkv
    simp only [if_pos hv] at hkv
    exact ih h kv hkv
  | case3 entId depth rest vE vA en an ed hv hb ent hFile a ih =>
    intro h kv hkv
    rw [ancLoop] at hkv
    simp only [if_neg hv, dif_pos hb, if_pos hFile] at hkv
    refine ih ?_ kv hkv
    intro kv2 hkv2
    rcases List.mem_append.mp hkv2 with h2 | h2
    · exact h kv2 h2
    · rw [List.mem_singleton] at h2
      subst h2
      exact ⟨ent, (Option.some_get hb).symm ▸ rfl, Or.inl ⟨hFile, rfl⟩⟩
  | case4 entId depth rest vE vA en an ed hv hb ent hFile hDs a ih =>
    intro h kv hkv
    rw [ancLoop] at hkv
    simp only [if_neg hv, dif_pos hb, if_neg hFile, if_pos hDs] at hkv
    refine ih ?_ kv hkv
    intro kv2 hkv2
    rcases List.mem_append.mp hkv2 with h2 | h2
    · exact h kv2 h2
    · rw [List.mem_singleton] at h2
      subst h2
      exact ⟨ent, (Option.some_get hb).symm ▸ rfl,
        Or.inr ⟨Bool.not_eq_true _ ▸ Bool.of_not_eq_true hFile, hDs, rfl⟩⟩
  | case5 entId depth rest vE vA en an ed hv hb ent hFile hDs ih =>
    intro h kv hkv
    rw [ancLoop] at hkv
    simp only [if_neg hv, dif_pos hb, if_neg hFile, if_neg hDs] at hkv
    exact ih h kv hkv
  | case6 entId depth rest vE vA en an ed hv hb ih =>
    intro h kv hkv
    rw [ancLoop] at hkv
    simp only [if_neg hv, dif_neg hb] at hkv
    exact ih h kv hkv

theorem ancLoop_actionNodes_some (g : List Entity) (md : Option Nat) :
    ∀ (s : AncState), (∀ kv ∈ s.actionNodes, (byId g kv.1).isSome) →
      ∀ kv ∈ (ancLoop g md s).actionNodes, (byId g kv.1).isSome := by
  intro s
  induction s using ancLoop.induct g md with
  | case1 vE vA en an ed =>
    intro h kv hkv
    rw [ancLoop] at hkv
    exact h kv hkv
  | case2 entId depth rest vE vA en an ed hv ih =>
    intro h kv hkv
    rw [ancLoop] at hkv
    simp only [if_pos hv] at hkv
    exact ih h kv hkv
  | case3 entId depth rest vE vA en an ed hv hb ent hFile a ih =>
    intro h kv hkv
    rw [ancLoop] at hkv
    simp only [if_neg hv, dif_pos hb, if_pos hFile] at hkv
    refine ih ?_ kv hkv
    intro kv2 hkv2
    rcases fold_ancAction_actionNodes_new g md entId depth _ _ kv2 hkv2 with h2 | ⟨_, h2⟩
    · exact h kv2 h2
    · exact h2
  | case4 entId depth rest vE vA en an ed hv hb ent hFile hDs a ih =>
    intro h kv hkv
    rw [ancLoop] at hkv
    simp only [if_neg hv, dif_pos hb, if_neg hFile, if_pos hDs] at hkv
    refine ih ?_ kv hkv
    intro kv2 hkv2
    rcases fold_ancAction_actionNodes_new g md entId depth _ _ kv2 hkv2 with h2 | ⟨_, h2⟩
    · exact h kv2 h2
    · exact h2
  | case5 entId depth rest vE vA en an ed hv hb ent hFile hDs ih =>
    intro h kv hkv
    rw [ancLoop] at hkv
    simp only [if_neg hv, dif_pos hb, if_neg hFile, if_neg hDs] at hkv
    exact ih h kv hkv
  | case6 entId depth rest vE vA en an ed hv hb ih =>
    intro h kv hkv
    rw [ancLoop] at hkv
    simp only [if_neg hv, dif_neg hb] at hkv
    exact ih h kv hkv

theorem ancLoop_edges_mono (g : List Entity) (md : Option Nat) :
    ∀ (s : AncState), ∀ x ∈ s.edges, x ∈ (ancLoop g md s).edges := by
  intro s
  induction s using ancLoop.induct g md with
  | case1 vE vA en an ed =>
    intro x hx
    rw [ancLoop]
    exact hx
  | case2 entId depth rest vE vA en an ed hv ih =>
    intro x hx
    rw [ancLoop]
    simp only [if_pos hv]
    exact ih x hx
  | case3 entId depth rest vE vA en an ed hv hb ent hFile a ih =>
    intro x hx
    rw [ancLoop]
    simp only [if_neg hv, dif_pos hb, if_pos hFile]
    exact ih x (fold_ancAction_edges_mono g md entId depth _ _ x hx)
  | case4 entId depth rest vE vA en an ed hv hb ent hFile hDs a ih =>
    intro x hx
    rw [ancLoop]
    simp only [if_neg hv, dif_pos hb, if_neg hFile, if_pos hDs]
    exact ih x (fold_ancAction_edges_mono g md entId depth _ _ x hx)
  | case5 entId depth rest vE vA en an ed hv hb ent hFile hDs ih =>
    intro x hx
    rw [ancLoop]
    simp only [if_neg hv, dif_pos hb, if_neg hFile, if_neg hDs]
    exact ih x hx
  | case6 entId depth rest vE vA en an ed hv hb ih =>
    intro x hx
    rw [ancLoop]
    simp only [if_neg hv, dif_neg hb]
    exact ih x hx

theorem ancLoop_gen_edges (g : List Entity) (md : Option Nat) :
    ∀ (s : AncState),
      (∀ kv ∈ s.entityNodes, ∀ aid ∈ actionsByResult g kv.1,
        ({ type := "generated", action := aid, entity := kv.1 } : Edge) ∈ s.edges) →
      ∀ kv ∈ (ancLoop g md s).entityNodes, ∀ aid ∈ actionsByResult g kv.1,
        ({ type := "generated", action := aid, entity := kv.1 } : Edge)
          ∈ (ancLoop g md s).edges := by
  intro s
  induction s using ancLoop.induct g md with
  | case1 vE vA en an ed =>
    intro h kv hkv aid haid
    rw [ancLoop] at hkv ⊢
    exact h kv hkv aid haid
  | case2 entId depth rest vE vA en an ed hv ih =>
    intro h kv hkv aid haid
    rw [ancLoop] at hkv ⊢
    simp only [if_pos hv] at hkv ⊢
    exact ih h kv hkv aid haid
  | case3 entId depth rest vE vA en an ed hv hb ent hFile a ih =>
    intro h kv hkv aid haid
    rw [ancLoop] at hkv ⊢
    simp only [if_neg hv, dif_pos hb, if_pos hFile] at hkv ⊢
    refine ih ?_ kv hkv aid haid
    intro kv2 hkv2 aid2 haid2
    rcases List.mem_append.mp hkv2 with h2 | h2
    · exact fold_ancAction_edges_mono g md entId depth _ _ _ (h kv2 h2 aid2 haid2)
    · rw [List.mem_singleton] at h2
      subst h2
      exact fold_ancAction_gen_edge g md entId depth _ _ aid2 haid2
        (mem_actionsByResult_isSome g entId aid2 haid2)
  | case4 entId depth rest vE vA en an ed hv hb ent hFile hDs a ih =>
    intro h kv hkv aid haid
    rw [ancLoop] at hkv ⊢
    simp only [if_neg hv, dif_pos hb, if_neg hFile, if_pos hDs] at hkv ⊢
    refine ih ?_ kv hkv aid haid
    intro kv2 hkv2 aid2 haid2
    rcases List.mem_append.mp hkv2 with h2 | h2
    · exact fold_ancAction_edges_mono g md entId depth _ _ _ (h kv2 h2 aid2 haid2)
    · rw [List.mem_singleton] at h2
      subst h2
      exact fold_ancAction_gen_edge g md entId depth _ _ aid2 haid2
        (mem_actionsByResult_isSome g entId aid2 haid2)
  | case5 entId depth rest vE vA en an ed hv hb ent hFile hDs ih =>
    intro h kv hkv aid haid
    rw [ancLoop] at hkv ⊢
    simp only [if_neg hv, dif_pos hb, if_neg hFile, if_neg hDs] at hkv ⊢
    exact ih h kv hkv aid haid
  | case6 entId depth rest vE vA en an ed hv hb ih =>
    intro h kv hkv aid haid
    rw [ancLoop] at hkv ⊢
    simp only [if_neg hv, dif_neg hb] at hkv ⊢
    exact ih h kv hkv aid haid

theorem ancLoop_zero_entityNodes (g : List Entity) :
    ∀ (s : AncState), ∀ kv ∈ (ancLoop g (some 0) s).entityNodes,
      kv ∈ s.entityNodes ∨ ∃ d, (kv.1, d) ∈ s.queue := by
  intro s
  induction s using ancLoop.induct g (some 0) with
  | case1 vE vA en an ed =>
    intro kv hkv
    rw [ancLoop] at hkv
    exact Or.inl hkv
  | case2 entId depth rest vE vA en an ed hv ih =>
    intro kv hkv
    rw [ancLoop] at hkv
    simp only [if_pos hv] at hkv
    rcases ih kv hkv with h1 | ⟨d, h1⟩
    · exact Or.inl h1
    · exact Or.inr ⟨d, List.mem_cons_of_mem _ h1⟩
  | case3 entId depth rest vE vA en an ed hv hb ent hFile a ih =>
    intro kv hkv
    rw [ancLoop] at hkv
    simp only [if_neg hv, dif_pos hb, if_pos hFile] at hkv
    have hq : a.queue = rest :=
      fold_ancAction_queue_zero g entId depth (actionsByResult g entId) ⟨rest, vA, an, ed⟩
    rcases ih kv hkv with h1 | ⟨d, h1⟩
    · rcases List.mem_append.mp h1 with h2 | h2
      · exact Or.inl h2
      · rw [List.mem_singleton] at h2
        subst h2
        exact Or.inr ⟨depth, List.mem_cons_self _ _⟩
    · rw [hq] at h1
      exact Or.inr ⟨d, List.mem_cons_of_mem _ h1⟩
  | case4 entId depth rest vE vA en an ed hv hb ent hFile hDs a ih =>
    intro kv hkv
    rw [ancLoop] at hkv
    simp only [if_neg hv, dif_pos hb, if_neg hFile, if_pos hDs] at hkv
    have hq : a.queue = rest :=
      fold_ancAction_queue_zero g entId depth (actionsByResult g entId) ⟨rest, vA, an, ed⟩
    rcases ih kv hkv with h1 | ⟨d, h1⟩
    · rcases List.mem_append.mp h1 with h2 | h2
      · exact Or.inl h2
      · rw [List.mem_singleton] at h2
        subst h2
        exact Or.inr ⟨depth, List.mem_cons_self _ _⟩
    · rw [hq] at h1
      exact Or.inr ⟨d, List.mem_cons_of_mem _ h1⟩
  | case5 entId depth rest vE vA en an ed hv hb ent hFile hDs ih =>
    intro kv hkv
    rw [ancLoop] at hkv
    simp only [if_neg hv, dif_pos hb, if_neg hFile, if_neg hDs] at hkv
    rcases ih kv hkv with h1 | ⟨d, h1⟩
    · exact Or.inl h1
    · exact Or.inr ⟨d, List.mem_cons_of_mem _ h1⟩
  | case6 entId depth rest vE vA en an ed hv hb ih =>
    intro kv hkv
    rw [ancLoop] at hkv
    simp only [if_neg hv, dif_neg hb] at hkv
    rcases ih kv hkv with h1 | ⟨d, h1⟩
    · exact Or.inl h1
    · exact Or.inr ⟨d, List.mem_cons_of_mem _ h1⟩

theorem ancLoop_zero_actionNodes (g : List Entity) :
    ∀ (s : AncState), ∀ kv ∈ (ancLoop g (some 0) s).actionNodes,
      kv ∈ s.actionNodes
      ∨ ∃ eid d, (eid, d) ∈ s.queue ∧ kv.1 ∈ actionsByResult g eid := by
  intro s
  induction s using ancLoop.induct g (some 0) with
  | case1 vE vA en an ed =>
    intro kv hkv
    rw [ancLoop] at hkv
    exact Or.inl hkv
  | case2 entId depth rest vE vA en an ed hv ih =>
    intro kv hkv
    rw [ancLoop] at hkv
    simp only [if_pos hv] at hkv
    rcases ih kv hkv with h1 | ⟨eid, d, h1, h2⟩
    · exact Or.inl h1
    · exact Or.inr ⟨eid, d, List.mem_cons_of_mem _ h1, h2⟩
  | case3 entId depth rest vE vA en an ed hv hb ent hFile a ih =>
    intro kv hkv
    rw [ancLoop] at hkv
    simp only [if_neg hv, dif_pos hb, if_pos hFile] at hkv
    have hq : a.queue = rest :=
      fold_ancAction_queue_zero g entId depth (actionsByResult g entId) ⟨rest, vA, an, ed⟩
    rcases ih kv hkv with h1 | ⟨eid, d, h1, h2⟩
    · rcases fold_ancAction_actionNodes_new g (some 0) entId depth _ _ kv h1 with h2 | ⟨h2, _⟩
      · exact Or.inl h2
      · exact Or.inr ⟨entId, depth, List.mem_cons_self _ _, h2⟩
    · rw [hq] at h1
      exact Or.inr ⟨eid, d, List.mem_cons_of_mem _ h1, h2⟩
  | case4 entId depth rest vE vA en an ed hv hb ent hFile hDs a ih =>
    intro kv hkv
    rw [ancLoop] at hkv
    simp only [if_neg hv, dif_pos hb, if_neg hFile, if_pos hDs] at hkv
    have hq : a.queue = rest :=
      fold_ancAction_queue_zero g entId depth (actionsByResult g entId) ⟨rest, vA, an, ed⟩
    rcases ih kv hkv with h1 | ⟨eid, d, h1, h2⟩
    · rcases fold_ancAction_actionNodes_new g (some 0) entId depth _ _ kv h1 with h2 | ⟨h2, _⟩
      · exact Or.inl h2
      · exact Or.inr ⟨entId, depth, List.mem_cons_self _ _, h2⟩
    · rw [hq] at h1
      exact Or.inr ⟨eid, d, List.mem_cons_of_mem _ h1, h2⟩
  | case5 entId depth rest vE vA en an ed hv hb ent hFile hDs ih =>
    intro kv hkv
    rw [ancLoop] at hkv
    simp only [if_neg hv, dif_pos hb, if_neg hFile, if_neg hDs] at hkv
    rcases ih kv hkv with h1 | ⟨eid, d, h1, h2⟩
    · exact Or.inl h1
    · exact Or.inr ⟨eid, d, List.mem_cons_of_mem _ h1, h2⟩
  | case6 entId depth rest vE vA en an ed hv hb ih =>
    intro kv hkv
    rw [ancLoop] at hkv
    simp only [if_neg hv, dif_neg hb] at hkv
    rcases ih kv hkv with h1 | ⟨eid, d, h1, h2⟩
    · exact Or.inl h1
    · exact Or.inr ⟨eid, d, List.mem_cons_of_mem _ h1, h2⟩

/-! ### Step lemmas for the descendants walker -/

theorem resolveRef_mem (g : List Entity) (r : Ref) (e : Entity)
    (h : resolveRef g r = some e) : e ∈ g := by
  unfold resolveRef at h
  cases ho : r.oid with
  | none => rw [ho] at h; cases h
  | some k =>
    rw [ho] at h
    exact (byId_eq_some g k e h).1

theorem descOutStep_edges_mono (g : List Entity) (md : Option Nat) (aid : String) (d : Nat)
    (acc : OutBuckets × List Edge × List (String × Nat)) (r : Ref) (x : Edge)
    (hx : x ∈ acc.2.1) : x ∈ (descOutStep g md aid d acc r).2.1 := by
  unfold descOutStep
  cases hr : resolveRef g r with
  | none => exact hx
  | some ent =>
    simp only
    by_cases h1 : hasType ent "File"
    · simp only [if_pos h1]
      exact List.mem_append_left _ hx
    · by_cases h2 : hasType ent "Dataset"
      · simp only [if_neg h1, if_pos h2]
        exact List.mem_append_left _ hx
      · simp only [if_neg h1, if_neg h2]
        exact hx

theorem descOutStep_queue_new (g : List Entity) (md : Option Nat) (aid : String) (d : Nat)
    (acc : OutBuckets × List Edge × List (String × Nat)) (r : Ref) (x : String × Nat)
    (hx : x ∈ (descOutStep g md aid d acc r).2.2) : x ∈ acc.2.2 ∨ x.1 ∈ idsOf g := by
  unfold descOutStep at hx
  cases hr : resolveRef g r with
  | none => rw [hr] at hx; exact Or.inl hx
  | some ent =>
    rw [hr] at hx
    simp only at hx
    have hmem : ent ∈ g := resolveRef_mem g r ent hr
    by_cases h1 : hasType ent "File"
    · simp only [if_pos h1] at hx
      by_cases hd : depthOk md d
      · simp only [if_pos hd] at hx
        rcases List.mem_append.mp hx with h2 | h2
        · exact Or.inl h2
        · rw [List.mem_singleton] at h2
          subst h2
          exact Or.inr (List.mem_map_of_mem Entity.id hmem)
      · simp only [if_neg hd] at hx
        exact Or.inl hx
    · by_cases h2 : hasType ent "Dataset"
      · simp only [if_neg h1, if_pos h2] at hx
        by_cases hd : depthOk md d
        · simp only [if_pos hd] at hx
          rcases List.mem_append.mp hx with h3 | h3
          · exact Or.inl h3
          · rw [List.mem_singleton] at h3
            subst h3
            exact Or.inr (List.mem_map_of_mem Entity.id hmem)
        · simp only [if_neg hd] at hx
          exact Or.inl hx
      · simp only [if_neg h1, if_neg h2] at hx
        exact Or.inl hx

theorem descOutStep_queue_zero (g : List Entity) (aid : String) (d : Nat)
    (acc : OutBuckets × List Edge × List (String × Nat)) (r : Ref) :
    (descOutStep g (some 0) aid d acc r).2.2 = acc.2.2 := by
  unfold descOutStep
  cases hr : resolveRef g r with
  | none => rfl
  | some ent =>
    simp only
    by_cases h1 : hasType ent "File"
    · simp [h1, depthOk_zero]
    · by_cases h2 : hasType ent "Dataset"
      · simp [h1, h2, depthOk_zero]
      · simp [h1, h2]

theorem descAction_edges_mono (g : List Entity) (md : Option Nat) (entId : String) (d : Nat)
    (a : DescAcc) (aid : String) (x : Edge) (hx : x ∈ a.edges) :
    x ∈ (descAction g md entId d a aid).edges := by
  unfold descAction
  cases hb : byId g aid with
  | none => exact hx
  | some act =>
    simp only
    by_cases hv : aid ∈ a.visitedA
    · simp [hv]
      exact Or.inl hx
    · simp only [if_neg hv]
      apply foldl_mem_mono (descOutStep g md aid d) (fun t => t.2.1)
        (fun b r y hy => descOutStep_edges_mono g md aid d b r y hy)
      exact List.mem_append_left _ hx

theorem descAction_used_edge (g : List Entity) (md : Option Nat) (entId : String) (d : Nat)
    (a : DescAcc) (aid : String) (hs : (byId g aid).isSome) :
    ({ type := "used", action := aid, entity := entId } : Edge)
      ∈ (descAction g md entId d a aid).edges := by
  unfold descAction
  cases hb : byId g aid with
  | none => rw [hb] at hs; cases hs
  | some act =>
    simp only
    by_cases hv : aid ∈ a.visitedA
    · simp [hv]
    · simp only [if_neg hv]
      apply foldl_mem_mono (descOutStep g md aid d) (fun t => t.2.1)
        (fun b r y hy => descOutStep_edges_mono g md aid d b r y hy)
      simp

theorem descAction_actionNodes_new (g : List Entity) (md : Option Nat) (entId : String)
    (d : Nat) (a : DescAcc) (aid : String) (kv : String × DescActionRecord)
    (hkv : kv ∈ (descAction g md entId d a aid).actionNodes) :
    kv ∈ a.actionNodes ∨ (kv.1 = aid ∧ (byId g kv.1).isSome) := by
  unfold descAction at hkv
  cases hb : byId g aid with
  | none => rw [hb] at hkv; exact Or.inl hkv
  | some act =>
    rw [hb] at hkv
    simp only at hkv
    by_cases hv : aid ∈ a.visitedA
    · simp [hv] at hkv
      exact Or.inl hkv
    · simp only [if_neg hv] at hkv
      simp only [List.mem_append, List.mem_singleton] at hkv
      rcases hkv with hkv | hkv
      · exact Or.inl hkv
      · refine Or.inr ⟨by rw [hkv], ?_⟩
        rw [hkv]
        simp [hb]

theorem descAction_queue_new (g : List Entity) (md : Option Nat) (entId : String) (d : Nat)
    (a : DescAcc) (aid : String) (x : String × Nat)
    (hx : x ∈ (descAction g md entId d a aid).queue) :
    x ∈ a.queue ∨ x.1 ∈ idsOf g := by
  unfold descAction at hx
  cases hb : byId g aid with
  | none => rw [hb] at hx; exact Or.inl hx
  | some act =>
    rw [hb] at hx
    simp only at hx
    by_cases hv : aid ∈ a.visitedA
    · simp [hv] at hx
      exact Or.inl hx
    · simp only [if_neg hv] at hx
      rcases foldl_mem_new (descOutStep g md aid d) (fun t => t.2.2)
        (fun _ y => y.1 ∈ idsOf g)
        (fun b r y hy => descOutStep_queue_new g md aid d b r y hy)
        act.result _ x hx with h1 | ⟨_, _, hp⟩
      · exact Or.inl h1
      · exact Or.inr hp

theorem descAction_queue_zero (g : List Entity) (entId : String) (d : Nat)
    (a : DescAcc) (aid : String) :
    (descAction g (some 0) entId d a aid).queue = a.queue := by
  unfold descAction
  cases hb : byId g aid with
  | none => rfl
  | some act =>
    simp only
    by_cases hv : aid ∈ a.visitedA
    · simp [hv]
    · simp only [if_neg hv]
      rw [foldl_pres (descOutStep g (some 0) aid d) (fun t => t.2.2)
        (fun b r => descOutStep_queue_zero g aid d b r)]

theorem fold_descAction_edges_mono (g : List Entity) (md : Option Nat) (entId : String)
    (d : Nat) (l : List String) (a : DescAcc) (x : Edge) (hx : x ∈ a.edges) :
    x ∈ (l.foldl (descAction g md entId d) a).edges :=
  foldl_mem_mono _ DescAcc.edges
    (fun b aid y hy => descAction_edges_mono g md entId d b aid y hy) l a x hx

theorem fold_descAction_used_edge (g : List Entity) (md : Option Nat) (entId : String)
    (d : Nat) :
    ∀ (l : List String) (a : DescAcc) (aid : String), aid ∈ l → (byId g aid).isSome →
      ({ type := "used", action := aid, entity := entId } : Edge)
        ∈ (l.foldl (descAction g md entId d) a).edges := by
  intro l
  induction l with
  | nil => intro a aid h; simp at h
  | cons b t ih =>
    intro a aid h hs
    rcases List.mem_cons.mp h with rfl | ht
    · rw [List.foldl_cons]
      exact fold_descAction_edges_mono g md entId d t _ _
        (descAction_used_edge g md entId d a aid hs)
    · rw [List.foldl_cons]
      exact ih _ aid ht hs

theorem fold_descAction_actionNodes_new (g : List Entity) (md : Option Nat) (entId : String)
    (d : Nat) (l : List String) (a : DescAcc) (kv : String × DescActionRecord)
    (hkv : kv ∈ (l.foldl (descAction g md entId d) a).actionNodes) :
    kv ∈ a.actionNodes ∨ (kv.1 ∈ l ∧ (byId g kv.1).isSome) := by
  rcases foldl_mem_new _ DescAcc.actionNodes
    (fun aid kv => kv.1 = aid ∧ (byId g kv.1).isSome)
    (fun b aid y hy => descAction_actionNodes_new g md entId d b aid y hy) l a kv hkv
    with h1 | ⟨aid, ha, heq, hsome⟩
  · exact Or.inl h1
  · exact Or.inr ⟨heq ▸ ha, hsome⟩

theorem fold_descAction_queue_new (g : List Entity) (md : Option Nat) (entId : String)
    (d : Nat) (l : List String) (a : DescAcc) (x : String × Nat)
    (hx : x ∈ (l.foldl (descAction g md entId d) a).queue) :
    x ∈ a.queue ∨ x.1 ∈ idsOf g := by
  rcases foldl_mem_new _ DescAcc.queue (fun _ x => x.1 ∈ idsOf g)
    (fun b aid y hy => descAction_queue_new g md entId d b aid y hy) l a x hx
    with h1 | ⟨_, _, hp⟩
  · exact Or.inl h1
  · exact Or.inr hp

theorem fold_descAction_queue_zero (g : List Entity) (entId : String) (d : Nat)
    (l : List String) (a : DescAcc) :
    (l.foldl (descAction g (some 0) entId d) a).queue = a.queue :=
  foldl_pres _ DescAcc.queue (fun b aid => descAction_queue_zero g entId d b aid) l a

/-! ### Invariants of the descendants loop -/

theorem descLoop_nodup (g : List Entity) (md : Option Nat) :
    ∀ (s : DescState), s.visitedE.Nodup → (descLoop g md s).visitedE.Nodup := by
  intro s
  induction s using descLoop.induct g md with
  | case1 vE vA en an ed =>
    intro h
    rw [descLoop]
    exact h
  | case2 entId depth rest vE vA en an ed hv ih =>
    intro h
    rw [descLoop]
    simp only [if_pos hv]
    exact ih h
  | case3 entId depth rest vE vA en an ed hv hb ent hFile a ih =>
    intro h
    rw [descLoop]
    simp only [if_neg hv, dif_pos hb, if_pos hFile]
    exact ih (by simp [List.nodup_append, h, hv])
  | case4 entId depth rest vE vA en an ed hv hb ent hFile hDs a ih =>
    intro h
    rw [descLoop]
    simp only [if_neg hv, dif_pos hb, if_neg hFile, if_pos hDs]
    exact ih (by simp [List.nodup_append, h, hv])
  | case5 entId depth rest vE vA en an ed hv hb ent hFile hDs ih =>
    intro h
    rw [descLoop]
    simp only [if_neg hv, dif_pos hb, if_neg hFile, if_neg hDs]
    exact ih (by simp [List.nodup_append, h, hv])
  | case6 entId depth rest vE vA en an ed hv hb ih =>
    intro h
    rw [descLoop]
    simp only [if_neg hv, dif_neg hb]
    exact ih (by simp [List.nodup_append, h, hv])

theorem descLoop_visited_sub (g : List Entity) (md : Option Nat) :
    ∀ (s : DescState), ∀ x ∈ (descLoop g md s).visitedE,
      x ∈ s.visitedE ∨ x ∈ s.queue.map Prod.fst ∨ x ∈ idsOf g := by
  intro s
  induction s using descLoop.induct g md with
  | case1 vE vA en an ed =>
    intro x hx
    rw [descLoop] at hx
    exact Or.inl hx
  | case2 entId depth rest vE vA en an ed hv ih =>
    intro x hx
    rw [descLoop] at hx
    simp only [if_pos hv] at hx
    rcases ih x hx with h1 | h1 | h1
    · exact Or.inl h1
    · exact Or.inr (Or.inl (by simp only [List.map_cons]; exact List.mem_cons_of_mem _ h1))
    · exact Or.inr (Or.inr h1)
  | case3 entId depth rest vE vA en an ed hv hb ent hFile a ih =>
    intro x hx
    rw [descLoop] at hx
    simp only [if_neg hv, dif_pos hb, if_pos hFile] at hx
    rcases ih x hx with h1 | h1 | h1
    · rcases List.mem_append.mp h1 with h2 | h2
      · exact Or.inl h2
      · rw [List.mem_singleton] at h2
        subst h2
        exact Or.inr (Or.inl (by simp))
    · rcases List.mem_map.mp h1 with ⟨p, hp, rfl⟩
      rcases fold_descAction_queue_new g md entId depth _ _ p hp with h2 | h2
      · exact Or.inr (Or.inl (by
          simp only [List.map_cons]
          exact List.mem_cons_of_mem _ (List.mem_map_of_mem Prod.fst h2)))
      · exact Or.inr (Or.inr h2)
    · exact Or.inr (Or.inr h1)
  | case4 entId depth rest vE vA en an ed hv hb ent hFile hDs a ih =>
    intro x hx
    rw [descLoop] at hx
    simp only [if_neg hv, dif_pos hb, if_neg hFile, if_pos hDs] at hx
    rcases ih x hx with h1 | h1 | h1
    · rcases List.mem_append.mp h1 with h2 | h2
      · exact Or.inl h2
      · rw [List.mem_singleton] at h2
        subst h2
        exact Or.inr (Or.inl (by simp))
    · rcases List.mem_map.mp h1 with ⟨p, hp, rfl⟩
      rcases fold_descAction_queue_new g md entId depth _ _ p hp with h2 | h2
      · exact Or.inr (Or.inl (by
          simp only [List.map_cons]
          exact List.mem_cons_of_mem _ (List.mem_map_of_mem Prod.fst h2)))
      · exact Or.inr (Or.inr h2)
    · exact Or.inr (Or.inr h1)
  | case5 entId depth rest vE vA en an ed hv hb ent hFile hDs ih =>
    intro x hx
    rw [descLoop] at hx
    simp only [if_neg hv, dif_pos hb, if_neg hFile, if_neg hDs] at hx
    rcases ih x hx with h1 | h1 | h1
    · rcases List.mem_append.mp h1 with h2 | h2
      · exact Or.inl h2
      · rw [List.mem_singleton] at h2
        subst h2
        exact Or.inr (Or.inl (by simp))
    · exact Or.inr (Or.inl (by
        simp only [List.map_cons]
        exact List.mem_cons_of_mem _ h1))
    · exact Or.inr (Or.inr h1)
  | case6 entId depth rest vE vA en an ed hv hb ih =>
    intro x hx
    rw [descLoop] at hx
    simp only [if_neg hv, dif_neg hb] at hx
    rcases ih x hx with h1 | h1 | h1
    · rcases List.mem_append.mp h1 with h2 | h2
      · exact Or.inl h2
      · rw [List.mem_singleton] at h2
        subst h2
        exact Or.inr (Or.inl (by simp))
    · exact Or.inr (Or.inl (by
        simp only [List.map_cons]
        exact List.mem_cons_of_mem _ h1))
    · exact Or.inr (Or.inr h1)

theorem descLoop_entityNodes_ok (g : List Entity) (md : Option Nat) :
    ∀ (s : DescState), (∀ kv ∈ s.entityNodes, entNodeOk g kv) →
      ∀ kv ∈ (descLoop g md s).entityNodes, entNodeOk g kv := by
  intro s
  induction s using descLoop.induct g md with
  | case1 vE vA en an ed =>
    intro h kv hkv
    rw [descLoop] at hkv
    exact h kv hkv
  | case2 entId depth rest vE vA en an ed hv ih =>
    intro h kv hkv
    rw [descLoop] at hkv
    simp only [if_pos hv] at hkv
    exact ih h kv hkv
  | case3 entId depth rest vE vA en an ed hv hb ent hFile a ih =>
    intro h kv hkv
    rw [descLoop] at hkv
    simp only [if_neg hv, dif_pos hb, if_pos hFile] at hkv
    refine ih ?_ kv hkv
    intro kv2 hkv2
    rcases List.mem_append.mp hkv2 with h2 | h2
    · exact h kv2 h2
    · rw [List.mem_singleton] at h2
      subst h2
      exact ⟨ent, (Option.some_get hb).symm ▸ rfl, Or.inl ⟨hFile, rfl⟩⟩
  | case4 entId depth rest vE vA en an ed hv hb ent hFile hDs a ih =>
    intro h kv hkv
    rw [descLoop] at hkv
    simp only [if_neg hv, dif_pos hb, if_neg hFile, if_pos hDs] at hkv
    refine ih ?_ kv hkv
    intro kv2 hkv2
    rcases List.mem_append.mp hkv2 with h2 | h2
    · exact h kv2 h2
    · rw [List.mem_singleton] at h2
      subst h2
      exact ⟨ent, (Option.some_get hb).symm ▸ rfl,
        Or.inr ⟨Bool.not_eq_true _ ▸ Bool.of_not_eq_true hFile, hDs, rfl⟩⟩
  | case5 entId depth rest vE vA en an ed hv hb ent hFile hDs ih =>
    intro h kv hkv
    rw [descLoop] at hkv
    simp only [if_neg hv, dif_pos hb, if_neg hFile, if_neg hDs] at hkv
    exact ih h kv hkv
  | case6 entId depth rest vE vA en an ed hv hb ih =>
    intro h kv hkv
    rw [descLoop] at hkv
    simp only [if_neg hv, dif_neg hb] at hkv
    exact ih h kv hkv

theorem descLoop_actionNodes_some (g : List Entity) (md : Option Nat) :
    ∀ (s : DescState), (∀ kv ∈ s.actionNodes, (byId g kv.1).isSome) →
      ∀ kv ∈ (descLoop g md s).actionNodes, (byId g kv.1).isSome := by
  intro s
  induction s using descLoop.induct g md with
  | case1 vE vA en an ed =>
    intro h kv hkv
    rw [descLoop] at hkv
    exact h kv hkv
  | case2 entId depth rest vE vA en an ed hv ih =>
    intro h kv hkv
    rw [descLoop] at hkv
    simp only [if_pos hv] at hkv
    exact ih h kv hkv
  | case3 entId depth rest vE vA en an ed hv hb ent hFile a ih =>
    intro h kv hkv
    rw [descLoop] at hkv
    simp only [if_neg hv, dif_pos hb, if_pos hFile] at hkv
    refine ih ?_ kv hkv
    intro kv2 hkv2
    rcases fold_descAction_actionNodes_new g md entId depth _ _ kv2 hkv2 with h2 | ⟨_, h2⟩
    · exact h kv2 h2
    · exact h2
  | case4 entId depth rest vE vA en an ed hv hb ent hFile hDs a ih =>
    intro h kv hkv
    rw [descLoop] at hkv
    simp only [if_neg hv, dif_pos hb, if_neg hFile, if_pos hDs] at hkv
    refine ih ?_ kv hkv
    intro kv2 hkv2
    rcases fold_descAction_actionNodes_new g md entId depth _ _ kv2 hkv2 with h2 | ⟨_, h2⟩
    · exact h kv2 h2
    · exact h2
  | case5 entId depth rest vE vA en an ed hv hb ent hFile hDs ih =>
    intro h kv hkv
    rw [descLoop] at hkv
    simp only [if_neg hv, dif_pos hb, if_neg hFile, if_neg hDs] at hkv
    exact ih h kv hkv
  | case6 entId depth rest vE vA en an ed hv hb ih =>
    intro h kv hkv
    rw [descLoop] at hkv
    simp only [if_neg hv, dif_neg hb] at hkv
    exact ih h kv hkv

theorem descLoop_edges_mono (g : List Entity) (md : Option Nat) :
    ∀ (s : DescState), ∀ x ∈ s.edges, x ∈ (descLoop g md s).edges := by
  intro s
  induction s using descLoop.induct g md with
  | case1 vE vA en an ed =>
    intro x hx
    rw [descLoop]
    exact hx
  | case2 entId depth rest vE vA en an ed hv ih =>
    intro x hx
    rw [descLoop]
    simp only [if_pos hv]
    exact ih x hx
  | case3 entId depth rest vE vA en an ed hv hb ent hFile a ih =>
    intro x hx
    rw [descLoop]
    simp only [if_neg hv, dif_pos hb, if_pos hFile]
    exact ih x (fold_descAction_edges_mono g md entId depth _ _ x hx)
  | case4 entId depth rest vE vA en an ed hv hb ent hFile hDs a ih =>
    intro x hx
    rw [descLoop]
    simp only [if_neg hv, dif_pos hb, if_neg hFile, if_pos hDs]
    exact ih x (fold_descAction_edges_mono g md entId depth _ _ x hx)
  | case5 entId depth rest vE vA en an ed hv hb ent hFile hDs ih =>
    intro x hx
    rw [descLoop]
    simp only [if_neg hv, dif_pos hb, if_neg hFile, if_neg hDs]
    exact ih x hx
  | case6 entId depth rest vE vA en an ed hv hb ih =>
    intro x hx
    rw [descLoop]
    simp only [if_neg hv, dif_neg hb]
    exact ih x hx

theorem descLoop_used_edges (g : List Entity) (md : Option Nat) :
    ∀ (s : DescState),
      (∀ kv ∈ s.entityNodes, ∀ aid ∈ actionsByInput g kv.1,
        ({ type := "used", action := aid, entity := kv.1 } : Edge) ∈ s.edges) →
      ∀ kv ∈ (descLoop g md s).entityNodes, ∀ aid ∈ actionsByInput g kv.1,
        ({ type := "used", action := aid, entity := kv.1 } : Edge)
          ∈ (descLoop g md s).edges := by
  intro s
  induction s using descLoop.induct g md with
  | case1 vE vA en an ed =>
    intro h kv hkv aid haid
    rw [descLoop] at hkv ⊢
    exact h kv hkv aid haid
  | case2 entId depth rest vE vA en an ed hv ih =>
    intro h kv hkv aid haid
    rw [descLoop] at hkv ⊢
    simp only [if_pos hv] at hkv ⊢
    exact ih h kv hkv aid haid
  | case3 entId depth rest vE vA en an ed hv hb ent hFile a ih =>
    intro h kv hkv aid haid
    rw [descLoop] at hkv ⊢
    simp only [if_neg hv, dif_pos hb, if_pos hFile] at hkv ⊢
    refine ih ?_ kv hkv aid haid
    intro kv2 hkv2 aid2 haid2
    rcases List.mem_append.mp hkv2 with h2 | h2
    · exact fold_descAction_edges_mono g md entId depth _ _ _ (h kv2 h2 aid2 haid2)
    · rw [List.mem_singleton] at h2
      subst h2
      exact fold_descAction_used_edge g md entId depth _ _ aid2 haid2
        (mem_actionsByInput_isSome g entId aid2 haid2)
  | case4 entId depth rest vE vA en an ed hv hb ent hFile hDs a ih =>
    intro h kv hkv aid haid
    rw [descLoop] at hkv ⊢
    simp only [if_neg hv, dif_pos hb, if_neg hFile, if_pos hDs] at hkv ⊢
    refine ih ?_ kv hkv aid haid
    intro kv2 hkv2 aid2 haid2
    rcases List.mem_append.mp hkv2 with h2 | h2
    · exact fold_descAction_edges_mono g md entId depth _ _ _ (h kv2 h2 aid2 haid2)
    · rw [List.mem_singleton] at h2
      subst h2
      exact fold_descAction_used_edge g md entId depth _ _ aid2 haid2
        (mem_actionsByInput_isSome g entId aid2 haid2)
  | case5 entId depth rest vE vA en an ed hv hb ent hFile hDs ih =>
    intro h kv hkv aid haid
    rw [descLoop] at hkv ⊢
    simp only [if_neg hv, dif_pos hb, if_neg hFile, if_neg hDs] at hkv ⊢
    exact ih h kv hkv aid haid
  | case6 entId depth rest vE vA en an ed hv hb ih =>
    intro h kv hkv aid haid
    rw [descLoop] at hkv ⊢
    simp only [if_neg hv, dif_neg hb] at hkv ⊢
    exact ih h kv hkv aid haid

theorem descLoop_zero_entityNodes (g : List Entity) :
    ∀ (s : DescState), ∀ kv ∈ (descLoop g (some 0) s).entityNodes,
      kv ∈ s.entityNodes ∨ ∃ d, (kv.1, d) ∈ s.queue := by
  intro s
  induction s using descLoop.induct g (some 0) with
  | case1 vE vA en an ed =>
    intro kv hkv
    rw [descLoop] at hkv
    exact Or.inl hkv
  | case2 entId depth rest vE vA en an ed hv ih =>
    intro kv hkv
    rw [descLoop] at hkv
    simp only [if_pos hv] at hkv
    rcases ih kv hkv with h1 | ⟨d, h1⟩
    · exact Or.inl h1
    · exact Or.inr ⟨d, List.mem_cons_of_mem _ h1⟩
  | case3 entId depth rest vE vA en an ed hv hb ent hFile a ih =>
    intro kv hkv
    rw [descLoop] at hkv
    simp only [if_neg hv, dif_pos hb, if_pos hFile] at hkv
    have hq : a.queue = rest :=
      fold_descAction_queue_zero g entId depth (actionsByInput g entId) ⟨rest, vA, an, ed⟩
    rcases ih kv hkv with h1 | ⟨d, h1⟩
    · rcases List.mem_append.mp h1 with h2 | h2
      · exact Or.inl h2
      · rw [List.mem_singleton] at h2
        subst h2
        exact Or.inr ⟨depth, List.mem_cons_self _ _⟩
    · rw [hq] at h1
      exact Or.inr ⟨d, List.mem_cons_of_mem _ h1⟩
  | case4 entId depth rest vE vA en an ed hv hb ent hFile hDs a ih =>
    intro kv hkv
    rw [descLoop] at hkv
    simp only [if_neg hv, dif_pos hb, if_neg hFile, if_pos hDs] at hkv
    have hq : a.queue = rest :=
      fold_descAction_queue_zero g entId depth (actionsByInput g entId) ⟨rest, vA, an, ed⟩
    rcases ih kv hkv with h1 | ⟨d, h1⟩
    · rcases List.mem_append.mp h1 with h2 | h2
      · exact Or.inl h2
      · rw [List.mem_singleton] at h2
        subst h2
        exact Or.inr ⟨depth, List.mem_cons_self _ _⟩
    · rw [hq] at h1
      exact Or.inr ⟨d, List.mem_cons_of_mem _ h1⟩
  | case5 entId depth rest vE vA en an ed hv hb ent hFile hDs ih =>
    intro kv hkv
    rw [descLoop] at hkv
    simp only [if_neg hv, dif_pos hb, if_neg hFile, if_neg hDs] at hkv
    rcases ih kv hkv with h1 | ⟨d, h1⟩
    · exact Or.inl h1
    · exact Or.inr ⟨d, List.mem_cons_of_mem _ h1⟩
  | case6 entId depth rest vE vA en an ed hv hb ih =>
    intro kv hkv
    rw [descLoop] at hkv
    simp only [if_neg hv, dif_neg hb] at hkv
    rcases ih kv hkv with h1 | ⟨d, h1⟩
    · exact Or.inl h1
    · exact Or.inr ⟨d, List.mem_cons_of_mem _ h1⟩

theorem descLoop_zero_actionNodes (g : List Entity) :
    ∀ (s : DescState), ∀ kv ∈ (descLoop g (some 0) s).actionNodes,
      kv ∈ s.actionNodes
      ∨ ∃ eid d, (eid, d) ∈ s.queue ∧ kv.1 ∈ actionsByInput g eid := by
  intro s
  induction s using descLoop.induct g (some 0) with
  | case1 vE vA en an ed =>
    intro kv hkv
    rw [descLoop] at hkv
    exact Or.inl hkv
  | case2 entId depth rest vE vA en an ed hv ih =>
    intro kv hkv
    rw [descLoop] at hkv
    simp only [if_pos hv] at hkv
    rcases ih kv hkv with h1 | ⟨eid, d, h1, h2⟩
    · exact Or.inl h1
    · exact Or.inr ⟨eid, d, List.mem_cons_of_mem _ h1, h2⟩
  | case3 entId depth rest vE vA en an ed hv hb ent hFile a ih =>
    intro kv hkv
    rw [descLoop] at hkv
    simp only [if_neg hv, dif_pos hb, if_pos hFile] at hkv
    have hq : a.queue = rest :=
      fold_descAction_queue_zero g entId depth (actionsByInput g entId) ⟨rest, vA, an, ed⟩
    rcases ih kv hkv with h1 | ⟨eid, d, h1, h2⟩
    · rcases fold_descAction_actionNodes_new g (some 0) entId depth _ _ kv h1 with h2 | ⟨h2, _⟩
      · exact Or.inl h2
      · exact Or.inr ⟨entId, depth, List.mem_cons_self _ _, h2⟩
    · rw [hq] at h1
      exact Or.inr ⟨eid, d, List.mem_cons_of_mem _ h1, h2⟩
  | case4 entId depth rest vE vA en an ed hv hb ent hFile hDs a ih =>
    intro kv hkv
    rw [descLoop] at hkv
    simp only [if_neg hv, dif_pos hb, if_neg hFile, if_pos hDs] at hkv
    have hq : a.queue = rest :=
      fold_descAction_queue_zero g entId depth (actionsByInput g entId) ⟨rest, vA, an, ed⟩
    rcases ih kv hkv with h1 | ⟨eid, d, h1, h2⟩
    · rcases fold_descAction_actionNodes_new g (some 0) entId depth _ _ kv h1 with h2 | ⟨h2, _⟩
      · exact Or.inl h2
      · exact Or.inr ⟨entId, depth, List.mem_cons_self _ _, h2⟩
    · rw [hq] at h1
      exact Or.inr ⟨eid, d, List.mem_cons_of_mem _ h1, h2⟩
  | case5 entId depth rest vE vA en an ed hv hb ent hFile hDs ih =>
    intro kv hkv
    rw [descLoop] at hkv
    simp only [if_neg hv, dif_pos hb, if_neg hFile, if_neg hDs] at hkv
    rcases ih kv hkv with h1 | ⟨eid, d, h1, h2⟩
    · exact Or.inl h1
    · exact Or.inr ⟨eid, d, List.mem_cons_of_mem _ h1, h2⟩
  | case6 entId depth rest vE vA en an ed hv hb ih =>
    intro kv hkv
    rw [descLoop] at hkv
    simp only [if_neg hv, dif_neg hb] at hkv
    rcases ih kv hkv with h1 | ⟨eid, d, h1, h2⟩
    · exact Or.inl h1
    · exact Or.inr ⟨eid, d, List.mem_cons_of_mem _ h1, h2⟩


/-! ### Remaining generic lemmas -/

theorem foldl_filter_skip {α β : Type} (f : β → α → β) (p : α → Bool)
    (hskip : ∀ b a, p a = false → f b a = b) :
    ∀ (l : List α) (b : β), (l.filter p).foldl f b = l.foldl f b := by
  intro l
  induction l with
  | nil => intro b; rfl
  | cons a t ih =>
    intro b
    by_cases hp : p a
    · rw [List.filter_cons_of_pos hp, List.foldl_cons, List.foldl_cons, ih]
    · rw [List.filter_cons_of_neg (by simpa using hp), List.foldl_cons,
        hskip b a (by simpa using hp), ih]

theorem nodup_subset_length {α : Type} [DecidableEq α] (l L : List α)
    (hnd : l.Nodup) (hsub : ∀ x ∈ l, x ∈ L) : l.length ≤ L.length := by
  have h1 : l.toFinset.card = l.length := List.toFinset_card_of_nodup hnd
  have h2 : l.toFinset ⊆ L.toFinset := by
    intro x hx
    rw [List.mem_toFinset] at hx ⊢
    exact hsub x hx
  calc l.length = l.toFinset.card := h1.symm
    _ ≤ L.toFinset.card := Finset.card_le_card h2
    _ ≤ L.length := List.toFinset_card_le L

/-! ### Claim C2 -/

/-- A root with one producing action: at `max_depth = 0` the action is
still expanded (depth limiting gates only enqueueing of its inputs). -/
def gC2 : List Entity :=
  [ { id := "f1", types := .one "File", alternateName := some "out.csv" },
    { id := "a1", types := .one "CreateAction", result := [Ref.inline "f1"],
      object := [Ref.inline "f0"] },
    { id := "f0", types := .one "File", alternateName := some "raw.csv" } ]

/-- Counterexample for claim C2: on `gC2`, the selector `"f1"` resolves,
yet `get_file_ancestry` with `max_depth = 0` returns a non-empty
`actions` map (it contains the producer `"a1"`), contradicting the
claimed "actions map is empty". -/
theorem claim_C2_counterexample :
    getFileEntities gC2 "f1" ≠ []
    ∧ (getFileAncestry gC2 "f1" (some 0)).actions.map Prod.fst = ["a1"]
    ∧ (getFileAncestry gC2 "f1" (some 0)).actions ≠ [] := by
  refine ⟨by decide, ?_, ?_⟩
  · simp [getFileAncestry, ancRun, ancLoop, ancAction, ancEnqueue, actionsByResult,
      actionsOf, indexRefs, idxAppend, byId, hasType, getFileEntities,
      getFileEntitiesByName, byIdValues, dictKeys, insertNew, findFilesByAltname,
      strContains, listInfix, Ref.oidT, Ref.oid, depthOk, partitionInputs, partitionRefs,
      bucketStep, resolveRef, resolveTool, instId, summariseTool, summariseFile,
      summariseDataset, summariseParam, summariseAction, gC2, pyOr]
  · intro h
    have h2 : (getFileAncestry gC2 "f1" (some 0)).actions.map Prod.fst = ["a1"] := by
      simp [getFileAncestry, ancRun, ancLoop, ancAction, ancEnqueue, actionsByResult,
        actionsOf, indexRefs, idxAppend, byId, hasType, getFileEntities,
        getFileEntitiesByName, byIdValues, dictKeys, insertNew, findFilesByAltname,
        strContains, listInfix, Ref.oidT, Ref.oid, depthOk, partitionInputs, partitionRefs,
        bucketStep, resolveRef, resolveTool, instId, summariseTool, summariseFile,
        summariseDataset, summariseParam, summariseAction, gC2, pyOr]
    rw [h] at h2
    cases h2

/-- Claim C2 (amended): with `max_depth = 0`, the `entities` map of both
traversals contains only root entities, and the `actions` map contains
only actions adjacent to a root (producers of a root for ancestry,
consumers of a root for descendants) — it is not empty in general,
because the depth bound gates only the enqueueing of further entities,
not the expansion of actions of a dequeued entity. -/
theorem claim_C2 (g : List Entity) (sel : String)
    (hr : getFileEntities g sel ≠ []) :
    (∀ kv ∈ (getFileAncestry g sel (some 0)).entities,
        kv.1 ∈ (getFileEntities g sel).map Entity.id)
    ∧ (∀ kv ∈ (getFileAncestry g sel (some 0)).actions,
        ∃ rid ∈ (getFileEntities g sel).map Entity.id, kv.1 ∈ actionsByResult g rid)
    ∧ (∀ kv ∈ (getFileDescendants g sel (some 0)).entities,
        kv.1 ∈ (getFileEntities g sel).map Entity.id)
    ∧ (∀ kv ∈ (getFileDescendants g sel (some 0)).actions,
        ∃ rid ∈ (getFileEntities g sel).map Entity.id, kv.1 ∈ actionsByInput g rid) := by
  have hne : (getFileEntities g sel).isEmpty = false := by
    simpa [List.isEmpty_iff] using hr
  refine ⟨?_, ?_, ?_, ?_⟩
  · intro kv hkv
    simp only [getFileAncestry, hne, Bool.false_eq_true, if_false] at hkv
    rcases ancLoop_zero_entityNodes g _ kv hkv with h1 | ⟨d, h1⟩
    · simp at h1
    · rcases List.mem_map.mp h1 with ⟨f, hf, hp⟩
      have : kv.1 = f.id := by
        have := congrArg Prod.fst hp
        simpa using this.symm
      rw [this]
      exact List.mem_map_of_mem Entity.id hf
  · intro kv hkv
    simp only [getFileAncestry, hne, Bool.false_eq_true, if_false] at hkv
    rcases ancLoop_zero_actionNodes g _ kv hkv with h1 | ⟨eid, d, h1, h2⟩
    · simp at h1
    · rcases List.mem_map.mp h1 with ⟨f, hf, hp⟩
      have heid : eid = f.id := by
        have := congrArg Prod.fst hp
        simpa using this.symm
      exact ⟨eid, heid ▸ List.mem_map_of_mem Entity.id hf, h2⟩
  · intro kv hkv
    simp only [getFileDescendants, hne, Bool.false_eq_true, if_false] at hkv
    rcases descLoop_zero_entityNodes g _ kv hkv with h1 | ⟨d, h1⟩
    · simp at h1
    · rcases List.mem_map.mp h1 with ⟨f, hf, hp⟩
      have : kv.1 = f.id := by
        have := congrArg Prod.fst hp
        simpa using this.symm
      rw [this]
      exact List.mem_map_of_mem Entity.id hf
  · intro kv hkv
    simp only [getFileDescendants, hne, Bool.false_eq_true, if_false] at hkv
    rcases descLoop_zero_actionNodes g _ kv hkv with h1 | ⟨eid, d, h1, h2⟩
    · simp at h1
    · rcases List.mem_map.mp h1 with ⟨f, hf, hp⟩
      have heid : eid = f.id := by
        have := congrArg Prod.fst hp
        simpa using this.symm
      exact ⟨eid, heid ▸ List.mem_map_of_mem Entity.id hf, h2⟩

/-- Witness for claim C2 (amended) on `gC2`. -/
theorem claim_C2_witness :
    (∀ kv ∈ (getFileAncestry gC2 "f1" (some 0)).entities,
        kv.1 ∈ (getFileEntities gC2 "f1").map Entity.id)
    ∧ (∀ kv ∈ (getFileAncestry gC2 "f1" (some 0)).actions,
        ∃ rid ∈ (getFileEntities gC2 "f1").map Entity.id, kv.1 ∈ actionsByResult gC2 rid)
    ∧ (∀ kv ∈ (getFileDescendants gC2 "f1" (some 0)).entities,
        kv.1 ∈ (getFileEntities gC2 "f1").map Entity.id)
    ∧ (∀ kv ∈ (getFileDescendants gC2 "f1" (some 0)).actions,
        ∃ rid ∈ (getFileEntities gC2 "f1").map Entity.id, kv.1 ∈ actionsByInput gC2 rid) :=
  claim_C2 gC2 "f1" (by decide)

/-! ### Claim C5 -/

/-- Claim C5: in the ancestry result every (visited data entity,
generating action) pair has its "generated" edge recorded, whether or not
the action was already expanded via a different output; symmetrically the
descendants result records a "used" edge for every (visited data entity,
consuming action) pair.  Only expansion is memoized, never edge
emission. -/
theorem claim_C5 (g : List Entity) (sel : String) (md : Option Nat) :
    (∀ eid ns aid, (eid, ns) ∈ (getFileAncestry g sel md).entities →
      aid ∈ actionsByResult g eid →
      ({ type := "generated", action := aid, entity := eid } : Edge)
        ∈ (getFileAncestry g sel md).edges)
    ∧ (∀ eid ns aid, (eid, ns) ∈ (getFileDescendants g sel md).entities →
      aid ∈ actionsByInput g eid →
      ({ type := "used", action := aid, entity := eid } : Edge)
        ∈ (getFileDescendants g sel md).edges) := by
  by_cases hne : (getFileEntities g sel).isEmpty
  · constructor
    · intro eid ns aid hmem _
      simp only [getFileAncestry, hne, if_true] at hmem
      simp at hmem
    · intro eid ns aid hmem _
      simp only [getFileDescendants, hne, if_true] at hmem
      simp at hmem
  · have hne2 : (getFileEntities g sel).isEmpty = false := by simpa using hne
    constructor
    · intro eid ns aid hmem haid
      simp only [getFileAncestry, hne2, Bool.false_eq_true, if_false] at hmem ⊢
      exact ancLoop_gen_edges g md _ (by simp) (eid, ns) hmem aid haid
    · intro eid ns aid hmem haid
      simp only [getFileDescendants, hne2, Bool.false_eq_true, if_false] at hmem ⊢
      exact descLoop_used_edges g md _ (by simp) (eid, ns) hmem aid haid

/-- Witness graph for claim C5. -/
def gW5 : List Entity :=
  [ { id := "f1", types := .one "File", alternateName := some "out.csv" },
    { id := "a1", types := .one "CreateAction", result := [Ref.inline "f1"],
      object := [Ref.inline "f0"] },
    { id := "f0", types := .one "File", alternateName := some "raw.csv" } ]

def fW5root : Entity :=
  { id := "f1", types := .one "File", alternateName := some "out.csv" }

def fW5in : Entity :=
  { id := "f0", types := .one "File", alternateName := some "raw.csv" }

/-- Witness for claim C5 at `gW5`. -/
theorem claim_C5_witness :
    ({ type := "generated", action := "a1", entity := "f1" } : Edge)
      ∈ (getFileAncestry gW5 "f1" none).edges
    ∧ ({ type := "used", action := "a1", entity := "f0" } : Edge)
      ∈ (getFileDescendants gW5 "f0" none).edges := by
  constructor
  · refine (claim_C5 gW5 "f1" none).1 "f1" (NodeSummary.file (summariseFile fW5root)) "a1"
      ?_ (by decide)
    simp [getFileAncestry, ancRun, ancLoop, ancAction, ancEnqueue, actionsByResult,
      actionsOf, indexRefs, idxAppend, byId, hasType, getFileEntities,
      getFileEntitiesByName, byIdValues, dictKeys, insertNew, findFilesByAltname,
      strContains, listInfix, Ref.oidT, Ref.oid, depthOk, partitionInputs, partitionRefs,
      bucketStep, resolveRef, resolveTool, instId, summariseTool, summariseFile,
      summariseDataset, summariseParam, summariseAction, gW5, fW5root, pyOr]
  · refine (claim_C5 gW5 "f0" none).2 "f0" (NodeSummary.file (summariseFile fW5in)) "a1"
      ?_ (by decide)
    simp [getFileDescendants, descRun, descLoop, descAction, descOutStep, actionsByInput,
      actionsOf, indexRefs, idxAppend, byId, hasType, getFileEntities,
      getFileEntitiesByName, byIdValues, dictKeys, insertNew, findFilesByAltname,
      strContains, listInfix, Ref.oidT, Ref.oid, depthOk, partitionInputs, partitionRefs,
      bucketStep, resolveRef, resolveTool, instId, summariseTool, summariseFile,
      summariseDataset, summariseParam, summariseAction, gW5, fW5in, pyOr]

/-! ### Claim C6 -/

/-- Claim C6: `descendant_files` contains exactly the summaries of visited
Artifact entities that are not roots and whose content hash is present;
an Artifact without a hash (and any Container) is excluded from
`descendant_files` but remains in `entities`. -/
theorem claim_C6 (g : List Entity) (sel : String) (md : Option Nat) :
    ∀ ns, ns ∈ (getFileDescendants g sel md).descendant_files
      ↔ ∃ eid ent, byId g eid = some ent ∧ hasType ent "File" = true
          ∧ ns = NodeSummary.file (summariseFile ent)
          ∧ (eid, ns) ∈ (getFileDescendants g sel md).entities
          ∧ eid ∉ (getFileEntities g sel).map Entity.id
          ∧ ns.sha1.isSome := by
  intro ns
  by_cases hne : (getFileEntities g sel).isEmpty
  · simp only [getFileDescendants, hne, if_true]
    constructor
    · intro h
      simp at h
    · rintro ⟨eid, ent, _, _, _, hmem, _⟩
      simp at hmem
  · have hne2 : (getFileEntities g sel).isEmpty = false := by simpa using hne
    simp only [getFileDescendants, hne2, Bool.false_eq_true, if_false]
    constructor
    · intro h
      rcases List.mem_map.mp h with ⟨kv, hkv, rfl⟩
      have hfil := List.of_mem_filter hkv
      have hmem := List.mem_of_mem_filter hkv
      simp only [Bool.and_eq_true, Bool.not_eq_true', decide_eq_false_iff_not] at hfil
      have hok := descLoop_entityNodes_ok g md _ (by simp) kv hmem
      rcases hok with ⟨ent, hbid, hcase⟩
      rcases hcase with ⟨hf, hns⟩ | ⟨_, _, hns⟩
      · exact ⟨kv.1, ent, hbid, hf, hns, hmem, hfil.1, hfil.2⟩
      · rw [hns] at hfil
        simp [NodeSummary.sha1] at hfil
    · rintro ⟨eid, ent, hbid, hf, hns, hmem, hroot, hsha⟩
      apply List.mem_map.mpr
      refine ⟨(eid, ns), ?_, rfl⟩
      apply List.mem_filter.mpr
      refine ⟨hmem, ?_⟩
      simp only [Bool.and_eq_true, Bool.not_eq_true', decide_eq_false_iff_not]
      exact ⟨hroot, hsha⟩

/-- Witness graph for claim C6: one descendant with a hash, one without. -/
def gW6 : List Entity :=
  [ { id := "f0", types := .one "File", alternateName := some "raw.csv",
      sha1 := some "h0" },
    { id := "a1", types := .one "CreateAction", object := [Ref.inline "f0"],
      result := [Ref.inline "f1", Ref.inline "f2"] },
    { id := "f1", types := .one "File", alternateName := some "mid.csv",
      sha1 := some "h1" },
    { id := "f2", types := .one "File", alternateName := some "ghost.csv" } ]

def fW6 : Entity :=
  { id := "f1", types := .one "File", alternateName := some "mid.csv",
    sha1 := some "h1" }

/-- Witness for claim C6 at `gW6`: the hashed non-root artifact is in
`descendant_files`. -/
theorem claim_C6_witness :
    NodeSummary.file (summariseFile fW6) ∈ (getFileDescendants gW6 "f0" none).descendant_files := by
  apply (claim_C6 gW6 "f0" none (NodeSummary.file (summariseFile fW6))).mpr
  refine ⟨"f1", fW6, by decide, by decide, rfl, ?_, by decide, by decide⟩
  simp [getFileDescendants, descRun, descLoop, descAction, descOutStep, actionsByInput,
    actionsOf, indexRefs, idxAppend, byId, hasType, getFileEntities,
    getFileEntitiesByName, byIdValues, dictKeys, insertNew, findFilesByAltname,
    strContains, listInfix, Ref.oidT, Ref.oid, depthOk, partitionInputs, partitionRefs,
    bucketStep, resolveRef, resolveTool, instId, summariseTool, summariseFile,
    summariseDataset, summariseParam, summariseAction, gW6, fW6, pyOr]

/-! ### Claim C7 -/

/-- Claim C7: graphs with dangling references are handled totally and
silently: the lineage query always succeeds (its only raising subscript
is provably unreachable), input partitioning is unchanged when the
unresolvable references are dropped (they are skipped), and every
entity/action node recorded by either traversal resolves in the entity
map (dangling ids contribute nothing and the walk continues). -/
theorem claim_C7 (g : List Entity) (sel : String) (md : Option Nat) (objs : List Ref) :
    (∃ l, getFileLineage g sel = some l)
    ∧ partitionRefs g (objs.filter (fun r => (resolveRef g r).isSome)) = partitionRefs g objs
    ∧ (∀ kv ∈ (getFileAncestry g sel md).entities, (byId g kv.1).isSome)
    ∧ (∀ kv ∈ (getFileAncestry g sel md).actions, (byId g kv.1).isSome)
    ∧ (∀ kv ∈ (getFileDescendants g sel md).entities, (byId g kv.1).isSome)
    ∧ (∀ kv ∈ (getFileDescendants g sel md).actions, (byId g kv.1).isSome) := by
  refine ⟨⟨_, getFileLineage_eq g sel⟩, ?_, ?_, ?_, ?_, ?_⟩
  · unfold partitionRefs
    apply foldl_filter_skip
    intro b r hp
    unfold bucketStep
    cases hr : resolveRef g r with
    | none => rfl
    | some e => rw [hr] at hp; cases hp
  all_goals
    by_cases hne : (getFileEntities g sel).isEmpty
  · intro kv hkv
    simp only [getFileAncestry, hne, if_true] at hkv
    simp at hkv
  · intro kv hkv
    have hne2 : (getFileEntities g sel).isEmpty = false := by simpa using hne
    simp only [getFileAncestry, hne2, Bool.false_eq_true, if_false] at hkv
    rcases ancLoop_entityNodes_ok g md _ (by simp) kv hkv with ⟨ent, hbid, _⟩
    simp [hbid]
  · intro kv hkv
    simp only [getFileAncestry, hne, if_true] at hkv
    simp at hkv
  · intro kv hkv
    have hne2 : (getFileEntities g sel).isEmpty = false := by simpa using hne
    simp only [getFileAncestry, hne2, Bool.false_eq_true, if_false] at hkv
    exact ancLoop_actionNodes_some g md _ (by simp) kv hkv
  · intro kv hkv
    simp only [getFileDescendants, hne, if_true] at hkv
    simp at hkv
  · intro kv hkv
    have hne2 : (getFileEntities g sel).isEmpty = false := by simpa using hne
    simp only [getFileDescendants, hne2, Bool.false_eq_true, if_false] at hkv
    rcases descLoop_entityNodes_ok g md _ (by simp) kv hkv with ⟨ent, hbid, _⟩
    simp [hbid]
  · intro kv hkv
    simp only [getFileDescendants, hne, if_true] at hkv
    simp at hkv
  · intro kv hkv
    have hne2 : (getFileEntities g sel).isEmpty = false := by simpa using hne
    simp only [getFileDescendants, hne2, Bool.false_eq_true, if_false] at hkv
    exact descLoop_actionNodes_some g md _ (by simp) kv hkv

/-- Witness graph for claim C7, with dangling references of both forms. -/
def gW7 : List Entity :=
  [ { id := "f1", types := .one "File", alternateName := some "x.csv" },
    { id := "a1", types := .one "CreateAction",
      object := [Ref.inline "missing", Ref.nested none, Ref.inline "f1"],
      result := [Ref.inline "f1", Ref.inline "ghost"] } ]

def fW7 : Entity :=
  { id := "f1", types := .one "File", alternateName := some "x.csv" }

/-- Witness for claim C7 at `gW7`. -/
theorem claim_C7_witness :
    (∃ l, getFileLineage gW7 "x.csv" = some l)
    ∧ partitionRefs gW7
        ([Ref.inline "missing", Ref.nested none, Ref.inline "f1"].filter
          (fun r => (resolveRef gW7 r).isSome))
        = partitionRefs gW7 [Ref.inline "missing", Ref.nested none, Ref.inline "f1"]
    ∧ (byId gW7 "f1").isSome := by
  have h := claim_C7 gW7 "x.csv" none
    [Ref.inline "missing", Ref.nested none, Ref.inline "f1"]
  refine ⟨h.1, h.2.1, ?_⟩
  apply h.2.2.1 ("f1", NodeSummary.file (summariseFile fW7))
  simp [getFileAncestry, ancRun, ancLoop, ancAction, ancEnqueue, actionsByResult,
    actionsOf, indexRefs, idxAppend, byId, hasType, getFileEntities,
    getFileEntitiesByName, byIdValues, dictKeys, insertNew, findFilesByAltname,
    strContains, listInfix, Ref.oidT, Ref.oid, depthOk, partitionInputs, partitionRefs,
    bucketStep, resolveRef, resolveTool, instId, summariseTool, summariseFile,
    summariseDataset, summariseParam, summariseAction, gW7, fW7, pyOr]

/-! ### Claim C9 -/

/-- Claim C9: both traversals terminate on every finite graph (they are
total functions defined by well-founded recursion on the unvisited-count
measure), and the visited-entities set makes each entity expand at most
once: the visited list of the final loop state is duplicate-free and no
longer than the roots plus the graph ids, so the loop performs finitely
many expansions even on cyclic graphs. -/
theorem claim_C9 (g : List Entity) (sel : String) (md : Option Nat) :
    ((ancRun g sel md).visitedE.Nodup
      ∧ (ancRun g sel md).visitedE.length
          ≤ ((getFileEntities g sel).map Entity.id ++ idsOf g).length)
    ∧ ((descRun g sel md).visitedE.Nodup
      ∧ (descRun g sel md).visitedE.length
          ≤ ((getFileEntities g sel).map Entity.id ++ idsOf g).length) := by
  constructor
  · constructor
    · exact ancLoop_nodup g md _ (by simp)
    · apply nodup_subset_length _ _ (ancLoop_nodup g md _ (by simp))
      intro x hx
      rcases ancLoop_visited_sub g md _ x hx with h1 | h1 | h1
      · simp at h1
      · simp only [List.map_map] at h1
        rw [List.mem_append]
        exact Or.inl (by simpa using h1)
      · exact List.mem_append.mpr (Or.inr h1)
  · constructor
    · exact descLoop_nodup g md _ (by simp)
    · apply nodup_subset_length _ _ (descLoop_nodup g md _ (by simp))
      intro x hx
      rcases descLoop_visited_sub g md _ x hx with h1 | h1 | h1
      · simp at h1
      · simp only [List.map_map] at h1
        rw [List.mem_append]
        exact Or.inl (by simpa using h1)
      · exact List.mem_append.mpr (Or.inr h1)

/-! ### Sorting and set lemmas for get_site_artifacts -/

theorem lexLe_total : ∀ (a b : List Char), lexLe a b = true ∨ lexLe b a = true := by
  intro a
  induction a with
  | nil => intro b; exact Or.inl rfl
  | cons c cs ih =>
    intro b
    cases b with
    | nil => exact Or.inr rfl
    | cons d ds =>
      by_cases h1 : c.toNat < d.toNat
      · exact Or.inl (by simp [lexLe, h1])
      · by_cases h2 : d.toNat < c.toNat
        · exact Or.inr (by simp [lexLe, h2])
        · rcases ih ds with h | h
          · exact Or.inl (by simp [lexLe, h1, h2, h])
          · exact Or.inr (by simp [lexLe, h1, h2, h])

theorem lexLe_trans : ∀ (a b c : List Char),
    lexLe a b = true → lexLe b c = true → lexLe a c = true := by
  intro a
  induction a with
  | nil => intro b c _ _; rfl
  | cons x xs ih =>
    intro b c hab hbc
    cases b with
    | nil => simp [lexLe] at hab
    | cons y ys =>
      cases c with
      | nil => simp [lexLe] at hbc
      | cons z zs =>
        simp only [lexLe] at hab hbc ⊢
        by_cases hxy : x.toNat < y.toNat
        · by_cases hyz : y.toNat < z.toNat
          · simp [show x.toNat < z.toNat by omega]
          · by_cases hzy : z.toNat < y.toNat
            · simp [hyz, hzy] at hbc
            · simp [show x.toNat < z.toNat by omega]
        · by_cases hyx : y.toNat < x.toNat
          · simp [hxy, hyx] at hab
          · have hxyeq : x.toNat = y.toNat := by omega
            by_cases hyz : y.toNat < z.toNat
            · simp [show x.toNat < z.toNat by omega]
            · by_cases hzy : z.toNat < y.toNat
              · simp [hyz, hzy] at hbc
              · simp only [hxy, hyx, if_false] at hab
                simp only [hyz, hzy, if_false] at hbc
                have hxz : ¬ x.toNat < z.toNat := by omega
                have hzx : ¬ z.toNat < x.toNat := by omega
                simp only [hxz, hzx, if_false]
                exact ih ys zs hab hbc

theorem strLeb_total (a b : String) : strLeb a b = true ∨ strLeb b a = true :=
  lexLe_total a.data b.data

theorem strLeb_trans (a b c : String) (h1 : strLeb a b = true) (h2 : strLeb b c = true) :
    strLeb a c = true :=
  lexLe_trans a.data b.data c.data h1 h2

theorem insertSorted_perm (x : String) :
    ∀ (l : List String), (insertSorted x l).Perm (x :: l) := by
  intro l
  induction l with
  | nil => exact List.Perm.refl _
  | cons y t ih =>
    unfold insertSorted
    by_cases h : strLeb x y
    · simp [h]
    · simp only [h, Bool.false_eq_true, if_false]
      exact (List.Perm.cons y ih).trans (List.Perm.swap x y t)

theorem sortStrings_perm : ∀ (l : List String), (sortStrings l).Perm l := by
  intro l
  induction l with
  | nil => exact List.Perm.refl _
  | cons x t ih =>
    unfold sortStrings
    exact (insertSorted_perm x (sortStrings t)).trans (List.Perm.cons x ih)

theorem insertSorted_pairwise (x : String) :
    ∀ (l : List String), List.Pairwise (fun a b => strLeb a b = true) l →
      List.Pairwise (fun a b => strLeb a b = true) (insertSorted x l) := by
  intro l
  induction l with
  | nil => intro _; simp [insertSorted]
  | cons y t ih =>
    intro h
    rcases List.pairwise_cons.mp h with ⟨hy, ht⟩
    unfold insertSorted
    by_cases hxy : strLeb x y
    · simp only [hxy, if_true]
      apply List.pairwise_cons.mpr
      refine ⟨?_, h⟩
      intro z hz
      rcases List.mem_cons.mp hz with rfl | hzt
      · exact hxy
      · exact strLeb_trans x y z hxy (hy z hzt)
    · simp only [hxy, Bool.false_eq_true, if_false]
      apply List.pairwise_cons.mpr
      refine ⟨?_, ih ht⟩
      intro z hz
      have hz2 := (insertSorted_perm x t).mem_iff.mp hz
      rcases List.mem_cons.mp hz2 with rfl | hzt
      · rcases strLeb_total y z with h2 | h2
        · exact h2
        · exact absurd h2 hxy
      · exact hy z hzt

theorem sortStrings_pairwise :
    ∀ (l : List String), List.Pairwise (fun a b => strLeb a b = true) (sortStrings l) := by
  intro l
  induction l with
  | nil => simp [sortStrings]
  | cons x t ih =>
    unfold sortStrings
    exact insertSorted_pairwise x (sortStrings t) ih

theorem insertNew_mem (ks : List String) (k x : String) :
    x ∈ insertNew ks k ↔ x ∈ ks ∨ x = k := by
  unfold insertNew
  by_cases h : k ∈ ks
  · simp only [h, if_true]
    constructor
    · exact Or.inl
    · rintro (hx | rfl)
      · exact hx
      · exact h
  · simp [h]

theorem insertNew_nodup (ks : List String) (k : String) (h : ks.Nodup) :
    (insertNew ks k).Nodup := by
  unfold insertNew
  by_cases hk : k ∈ ks
  · simp only [hk, if_true]
    exact h
  · simp only [hk, if_false]
    simp [List.nodup_append, h, hk]

theorem siteIds_fold_mem (g : List Entity) (site : String) :
    ∀ (l : List Entity) (acc : List String) (x : String),
      x ∈ l.foldl (fun acc a => if siteQualifies g site a then insertNew acc a.id else acc) acc
        ↔ x ∈ acc ∨ ∃ a ∈ l, a.id = x ∧ siteQualifies g site a = true := by
  intro l
  induction l with
  | nil => intro acc x; simp
  | cons a t ih =>
    intro acc x
    rw [List.foldl_cons]
    by_cases hq : siteQualifies g site a
    · simp only [hq, if_true]
      rw [ih (insertNew acc a.id) x, insertNew_mem]
      constructor
      · rintro ((hx | rfl) | ⟨b, hb, hid, hqb⟩)
        · exact Or.inl hx
        · exact Or.inr ⟨a, List.mem_cons_self a t, rfl, hq⟩
        · exact Or.inr ⟨b, List.mem_cons_of_mem a hb, hid, hqb⟩
      · rintro (hx | ⟨b, hb, hid, hqb⟩)
        · exact Or.inl (Or.inl hx)
        · rcases List.mem_cons.mp hb with rfl | hbt
          · exact Or.inl (Or.inr hid.symm)
          · exact Or.inr ⟨b, hbt, hid, hqb⟩
    · simp only [hq, Bool.false_eq_true, if_false]
      rw [ih acc x]
      constructor
      · rintro (hx | ⟨b, hb, hid, hqb⟩)
        · exact Or.inl hx
        · exact Or.inr ⟨b, List.mem_cons_of_mem a hb, hid, hqb⟩
      · rintro (hx | ⟨b, hb, hid, hqb⟩)
        · exact Or.inl hx
        · rcases List.mem_cons.mp hb with rfl | hbt
          · exact absurd hqb hq
          · exact Or.inr ⟨b, hbt, hid, hqb⟩

theorem siteIds_fold_nodup (g : List Entity) (site : String) :
    ∀ (l : List Entity) (acc : List String), acc.Nodup →
      (l.foldl (fun acc a => if siteQualifies g site a then insertNew acc a.id else acc)
        acc).Nodup := by
  intro l
  induction l with
  | nil => intro acc h; exact h
  | cons a t ih =>
    intro acc h
    rw [List.foldl_cons]
    by_cases hq : siteQualifies g site a
    · simp only [hq, if_true]
      exact ih _ (insertNew_nodup acc a.id h)
    · simp only [hq, Bool.false_eq_true, if_false]
      exact ih _ h

theorem siteActionIds_mem (g : List Entity) (site : String) (x : String) :
    x ∈ siteActionIds g site
      ↔ ∃ a ∈ actionsOf g, a.id = x ∧ siteQualifies g site a = true := by
  unfold siteActionIds
  rw [siteIds_fold_mem g site (actionsOf g) [] x]
  simp

theorem siteActionIds_nodup (g : List Entity) (site : String) :
    (siteActionIds g site).Nodup :=
  siteIds_fold_nodup g site (actionsOf g) [] (by simp)

theorem siteRuns_fold (g : List Entity) :
    ∀ (L : List String) (out : List RunSummary),
      (∀ aid ∈ L, (byId g aid).isSome) →
      L.foldl
        (fun acc aid => acc.bind (fun out => (byId g aid).map (fun a => out ++ [summariseRun g a])))
        (some out)
      = some (out ++ L.filterMap (fun aid => (byId g aid).map (summariseRun g))) := by
  intro L
  induction L with
  | nil => intro out _; simp
  | cons aid t ih =>
    intro out h
    have ha := h aid (List.mem_cons_self aid t)
    cases hb : byId g aid with
    | none => rw [hb] at ha; cases ha
    | some b =>
      rw [List.foldl_cons, Option.some_bind, hb, Option.map_some',
        ih (out ++ [summariseRun g b]) (fun x hx => h x (List.mem_cons_of_mem aid hx)),
        List.filterMap_cons, hb]
      simp

theorem runs_map_ids (g : List Entity) :
    ∀ (L : List String), (∀ aid ∈ L, (byId g aid).isSome) →
      (L.filterMap (fun aid => (byId g aid).map (summariseRun g))).map
        (fun r => r.action.id) = L := by
  intro L
  induction L with
  | nil => intro _; rfl
  | cons aid t ih =>
    intro h
    have ha := h aid (List.mem_cons_self aid t)
    cases hb : byId g aid with
    | none => rw [hb] at ha; cases ha
    | some b =>
      rw [List.filterMap_cons, hb, Option.map_some']
      simp only [List.map_cons]
      rw [ih (fun x hx => h x (List.mem_cons_of_mem aid hx))]
      have hid : b.id = aid := (byId_eq_some g aid b hb).2
      simp [summariseRun, summariseAction, hid]

/-! ### Claim C10 -/

/-- Claim C10: `step_runs` has exactly one record per qualifying action
(an action with several matching `site_id` parameters still appears
once), and the records are ordered by the lexicographic sort of the
action ids, not by graph order: the record ids are duplicate-free,
pairwise sorted, and characterize exactly the qualifying actions. -/
theorem claim_C10 (g : List Entity) (site : String) :
    ∃ rs, siteStepRuns g site = some rs
      ∧ rs.map (fun r => r.action.id) = sortStrings (siteActionIds g site)
      ∧ (rs.map (fun r => r.action.id)).Nodup
      ∧ List.Pairwise (fun a b => strLeb a b = true) (rs.map (fun r => r.action.id))
      ∧ (∀ aid, aid ∈ rs.map (fun r => r.action.id)
          ↔ ∃ a ∈ actionsOf g, a.id = aid ∧ siteQualifies g site a = true) := by
  have hres : ∀ aid ∈ sortStrings (siteActionIds g site), (byId g aid).isSome := by
    intro aid ha
    have ha2 := (sortStrings_perm (siteActionIds g site)).mem_iff.mp ha
    rcases (siteActionIds_mem g site aid).mp ha2 with ⟨a, hmem, hid, _⟩
    exact byId_isSome_of_mem g aid
      (hid ▸ List.mem_map_of_mem Entity.id (List.mem_of_mem_filter hmem))
  refine ⟨(sortStrings (siteActionIds g site)).filterMap
      (fun aid => (byId g aid).map (summariseRun g)), ?_, ?_, ?_, ?_, ?_⟩
  · unfold siteStepRuns
    exact siteRuns_fold g _ [] hres
  · exact runs_map_ids g _ hres
  · rw [runs_map_ids g _ hres]
    exact (sortStrings_perm (siteActionIds g site)).nodup_iff.mpr
      (siteActionIds_nodup g site)
  · rw [runs_map_ids g _ hres]
    exact sortStrings_pairwise (siteActionIds g site)
  · intro aid
    rw [runs_map_ids g _ hres, (sortStrings_perm (siteActionIds g site)).mem_iff,
      siteActionIds_mem]

/-- Witness graph for claim C10: two qualifying actions in reverse
lexicographic graph order. -/
def gW10 : List Entity :=
  [ { id := "b1", types := .one "CreateAction", object := [Ref.inline "p1"] },
    { id := "a1", types := .one "CreateAction", object := [Ref.inline "p1"] },
    { id := "p1", types := .one "PropertyValue", name := some "site_id",
      value := some "s1" } ]

/-- Witness for claim C10: the two step runs come back sorted by id
(`a1` before `b1`), not in graph order. -/
theorem claim_C10_witness :
    ∃ rs, siteStepRuns gW10 "s1" = some rs
      ∧ rs.map (fun r => r.action.id) = ["a1", "b1"] := by
  rcases claim_C10 gW10 "s1" with ⟨rs, hsome, hids, _⟩
  refine ⟨rs, hsome, ?_⟩
  rw [hids]
  decide

/-- Witness for claim C9 at a concrete graph and selector. -/
theorem claim_C9_witness :
    ((ancRun gC2 "f1" none).visitedE.Nodup
      ∧ (ancRun gC2 "f1" none).visitedE.length
          ≤ ((getFileEntities gC2 "f1").map Entity.id ++ idsOf gC2).length)
    ∧ ((descRun gC2 "f1" none).visitedE.Nodup
      ∧ (descRun gC2 "f1" none).visitedE.length
          ≤ ((getFileEntities gC2 "f1").map Entity.id ++ idsOf gC2).length) :=
  claim_C9 gC2 "f1" none

end Prov
